import Mathlib

/-!
Verification development for two compiler front-end passes:
(A) the expression-to-type translator (`mypy/exprtotype.py`), and
(B) the closure/decorator pre-analyzer (`mypyc/irbuild/prebuildvisitor.py`).
Source positions (line/column) carried by every node are omitted from the
embedding: no analyzed behavior depends on them.
-/

namespace MypyEmbed

/-! ### Generic association-list operations (model of Python dict). -/

/-- Association-list lookup (first matching key wins; keys are unique in
all states built here, so order is immaterial). -/
def alookup {α β : Type} [DecidableEq α] : List (α × β) → α → Option β
  | [], _ => none
  | (k, v) :: rest, a => if a = k then some v else alookup rest a

/-- Update the value at a key, inserting `f d` when the key is absent.
Models `dict.setdefault(k, d)` followed by a mutation `f` of the value. -/
def aupdate {α β : Type} [DecidableEq α] (k : α) (f : β → β) (d : β) :
    List (α × β) → List (α × β)
  | [] => [(k, f d)]
  | (k', v) :: rest =>
    if k = k' then (k', f v) :: rest else (k', v) :: aupdate k f d rest

/-- Plain insert/overwrite, models `dict[k] = v`. -/
def ainsert {α β : Type} [DecidableEq α] (k : α) (v : β) (l : List (α × β)) :
    List (α × β) :=
  aupdate k (fun _ => v) v l

/-- Model of `set.add`: append the element when absent. -/
def addIfAbsent {α : Type} [DecidableEq α] (a : α) (l : List α) : List α :=
  if a ∈ l then l else l ++ [a]

/-! ### Data model of the translator (`mypy/exprtotype.py`). -/

/-- Literal payload of a `RawExpressionType`.  Python stores a plain value;
`b` covers `bool` which Python's `isinstance(·, int)` also accepts. -/
inductive Lit : Type
  | i (n : Int)
  | b (v : Bool)
  | s (v : String)
  deriving DecidableEq

/-- Failure outcomes of the translator: `translationError` models
`TypeTranslationError`; `crash` models an uncaught Python `IndexError`
(reachable only on an `Annotated[...]` applied to an empty tuple index). -/
inductive TErr : Type
  | translationError
  | crash
  deriving DecidableEq

/-- The type-descriptor vocabulary produced by the translator
(`UnboundType`, `TypeList`, `AnyType(unannotated)`, `CallableArgument`,
`RawExpressionType`, `EllipsisType`, `UnionType`).  `parsedString` stands
for the result of the external `parse_type_string` collaborator
(`mypy.fastparse`, outside this repository), kept abstract: it records
exactly the arguments the source passes to it. -/
inductive PType : Type
  | unbound (name : String) (args : List PType) (emptyTupleIndex : Bool)
  | typeList (items : List PType)
  | anyT
  | callableArg (typ : PType) (argName : Option String) (constructor : String)
  | rawExpr (literalValue : Option Lit) (baseTypeName : String)
  | ellipsisT
  | unionT (items : List PType)
  | parsedString (value : String) (baseTypeName : String) (assumeStrIsUnicode : Bool)

/-- The slice of `mypy.options.Options` the translator reads. -/
structure Opts : Type where
  python_version : Nat × Nat
  deriving DecidableEq

/-- Python tuple comparison `v >= (3, 10)` on a two-tuple version. -/
def pyVerGe310 (v : Nat × Nat) : Bool :=
  decide (3 < v.1) || (decide (v.1 = 3) && decide (10 ≤ v.2))

/-- The guard `options and options.python_version >= (3, 10)`. -/
def unionSyntaxEnabled : Option Opts → Bool
  | none => false
  | some o => pyVerGe310 o.python_version

/-- References a `NameExpr.node` / `MemberExpr.node` can hold, as far as the
analyzed code inspects them. -/
inductive NodeRef : Type
  | typeInfo (id : Nat)
  | decoratorRef (funcId : Nat)
  | varRef (id : Nat)
  | funcRef (id : Nat)
  | noneRef
  deriving DecidableEq

mutual
/-- Expression nodes, mirroring the `mypy.nodes` variants the translator
dispatches on.  `fullname` is the stored `RefExpr.fullname` attribute
(possibly unset).  `otherE` stands for any further expression kind, all of
which reach the translator's final `else` branch. -/
inductive Expr : Type
  | nameE (name : String) (fullname : Option String)
  | memberE (base : Expr) (name : String) (fullname : Option String)
  | indexE (base : Expr) (index : Expr)
  | tupleE (items : ExprList)
  | listE (items : ExprList)
  | callE (callee : Expr) (args : ExprList) (argNames : List (Option String))
  | opE (op : String) (left : Expr) (right : Expr)
  | unaryE (op : String) (operand : Expr)
  | intE (v : Int)
  | floatE
  | complexE
  | strE (v : String) (fromPython3 : Bool)
  | bytesE (v : String)
  | unicodeE (v : String)
  | ellipsisE
  | otherE

/-- Expression sequences (argument and item lists), kept as a mutual
inductive so all recursion below is structural. -/
inductive ExprList : Type
  | nil
  | cons (head : Expr) (tail : ExprList)
end

/-- Modelled from the spec: `get_member_expr_fullname` (`mypy.nodes`, not in
this repository) reduces a member-access chain to its dotted name and
returns `None` when the chain bottoms out in anything but a plain name. -/
def get_member_expr_fullname : Expr → Option String
  | .memberE base nm _ =>
    match base with
    | .nameE n2 _ => some (n2 ++ "." ++ nm)
    | .memberE b2 n2 f2 =>
      match get_member_expr_fullname (.memberE b2 n2 f2) with
      | some ini => some (ini ++ "." ++ nm)
      | none => none
    | _ => none
  | _ => none

/-- The stored `fullname` attribute of a `RefExpr` (`None` for non-refs). -/
def refExprFullname : Expr → Option String
  | .nameE _ fn => fn
  | .memberE _ _ fn => fn
  | _ => none

/-- The guard `isinstance(expr.base, RefExpr) and expr.base.fullname in
['typing.Annotated', 'typing_extensions.Annotated']`. -/
def isAnnotatedRef (e : Expr) : Bool :=
  match refExprFullname e with
  | some fn => fn == "typing.Annotated" || fn == "typing_extensions.Annotated"
  | none => false

/-- `_extract_argument_name` from `mypy/exprtotype.py`: a `None` name
literal means "no name", a (unicode) string literal supplies the name,
anything else is a translation error. -/
def _extract_argument_name : Expr → Except TErr (Option String)
  | .nameE nm _ => if nm = "None" then .ok none else .error .translationError
  | .strE v _ => .ok (some v)
  | .unicodeE v => .ok (some v)
  | _ => .error .translationError

/-- The callee walk of the `CallExpr` branch: chain of member accesses down
to a root name, joined into a dotted constructor name. -/
def calleeConstName : Expr → Option String
  | .nameE nm _ => some nm
  | .memberE base nm _ =>
    match calleeConstName base with
    | some pre => some (pre ++ "." ++ nm)
    | none => none
  | _ => none

/-- The check `isinstance(_parent, ListExpr)`. -/
def isListParent : Option Expr → Bool
  | some (.listE _) => true
  | _ => false

mutual
/-- Size of an expression, used as translation fuel. -/
def exprSize : Expr → Nat
  | .nameE _ _ => 1
  | .memberE base _ _ => exprSize base + 1
  | .indexE b idx => exprSize b + exprSize idx + 1
  | .tupleE items => exprListSize items + 1
  | .listE items => exprListSize items + 1
  | .callE callee args _ => exprSize callee + exprListSize args + 1
  | .opE _ l r => exprSize l + exprSize r + 1
  | .unaryE _ operand => exprSize operand + 1
  | .intE _ => 1
  | .floatE => 1
  | .complexE => 1
  | .strE _ _ => 1
  | .bytesE _ => 1
  | .unicodeE _ => 1
  | .ellipsisE => 1
  | .otherE => 1

/-- Size of an expression list, used as translation fuel. -/
def exprListSize : ExprList → Nat
  | .nil => 1
  | .cons h t => exprSize h + exprListSize t + 1
end

mutual
/-- Fuel-indexed body of `expr_to_unanalyzed_type` (`mypy/exprtotype.py`).
The fuel only makes the recursion structural; `sizeOf` fuel is always
sufficient (`translateF_canon`), so the `.error .crash` fuel-exhaustion arm
is unreachable from the wrappers below.  The `par` argument is the
`_parent` parameter used by the `CallExpr` branch. -/
def translateF : Nat → Expr → Option Opts → Option Expr → Except TErr PType
  | 0, _, _, _ => .error .crash
  | _ + 1, .nameE nm _, _, _ =>
    if nm = "True" then .ok (.rawExpr (some (.b true)) "builtins.bool")
    else if nm = "False" then .ok (.rawExpr (some (.b false)) "builtins.bool")
    else .ok (.unbound nm [] false)
  | _ + 1, .memberE base nm fn, _, _ =>
    match get_member_expr_fullname (.memberE base nm fn) with
    | some full => .ok (.unbound full [] false)
    | none => .error .translationError
  | fuel + 1, .indexE b (.tupleE .nil), opts, _ =>
    match translateF fuel b opts (some (.indexE b (.tupleE .nil))) with
    | .error e => .error e
    | .ok (.unbound nm args eti) =>
      match args with
      | _ :: _ => .error .translationError
      | [] =>
        if isAnnotatedRef b then .error .crash
        else
          match exprListF fuel .nil opts (some (.indexE b (.tupleE .nil))) with
          | .error e => .error e
          | .ok ts => .ok (.unbound nm ts (if ts.isEmpty then true else eti))
    | .ok _ => .error .translationError
  | fuel + 1, .indexE b (.tupleE (.cons a0 arest)), opts, _ =>
    match translateF fuel b opts (some (.indexE b (.tupleE (.cons a0 arest)))) with
    | .error e => .error e
    | .ok (.unbound nm args eti) =>
      match args with
      | _ :: _ => .error .translationError
      | [] =>
        if isAnnotatedRef b then
          translateF fuel a0 opts (some (.indexE b (.tupleE (.cons a0 arest))))
        else
          match exprListF fuel (.cons a0 arest) opts
              (some (.indexE b (.tupleE (.cons a0 arest)))) with
          | .error e => .error e
          | .ok ts => .ok (.unbound nm ts (if ts.isEmpty then true else eti))
    | .ok _ => .error .translationError
  | fuel + 1, .indexE b idx, opts, _ =>
    match translateF fuel b opts (some (.indexE b idx)) with
    | .error e => .error e
    | .ok (.unbound nm args eti) =>
      match args with
      | _ :: _ => .error .translationError
      | [] =>
        if isAnnotatedRef b then translateF fuel idx opts (some (.indexE b idx))
        else
          match translateF fuel idx opts (some (.indexE b idx)) with
          | .error e => .error e
          | .ok t => .ok (.unbound nm [t] eti)
    | .ok _ => .error .translationError
  | fuel + 1, .opE op l r, opts, _ =>
    if op = "|" ∧ unionSyntaxEnabled opts = true then
      match translateF fuel l opts none with
      | .error e => .error e
      | .ok tl =>
        match translateF fuel r opts none with
        | .error e => .error e
        | .ok tr => .ok (.unionT [tl, tr])
    else .error .translationError
  | fuel + 1, .callE callee args argNames, opts, par =>
    if isListParent par then
      match calleeConstName callee with
      | none => .error .translationError
      | some constName =>
        match callArgsF fuel (.callE callee args argNames) opts args argNames 0 none none with
        | .error e => .error e
        | .ok (nm, tp) => .ok (.callableArg (tp.getD .anyT) nm constName)
    else .error .translationError
  | fuel + 1, .listE items, opts, _ =>
    match exprListF fuel items opts (some (.listE items)) with
    | .error e => .error e
    | .ok ts => .ok (.typeList ts)
  | _ + 1, .strE v f3, _, _ => .ok (.parsedString v "builtins.str" f3)
  | _ + 1, .bytesE v, _, _ => .ok (.parsedString v "builtins.bytes" false)
  | _ + 1, .unicodeE v, _, _ => .ok (.parsedString v "builtins.unicode" true)
  | fuel + 1, .unaryE op operand, opts, _ =>
    match translateF fuel operand opts none with
    | .error e => .error e
    | .ok t =>
      match t with
      | .rawExpr lv btn =>
        match lv with
        | some (.i n) =>
          if op = "-" then .ok (.rawExpr (some (.i (-n))) btn) else .error .translationError
        | some (.b v) =>
          if op = "-" then .ok (.rawExpr (some (.i (if v then (-1 : Int) else 0))) btn)
          else .error .translationError
        | _ => .error .translationError
      | _ => .error .translationError
  | _ + 1, .intE v, _, _ => .ok (.rawExpr (some (.i v)) "builtins.int")
  | _ + 1, .floatE, _, _ => .ok (.rawExpr none "builtins.float")
  | _ + 1, .complexE, _, _ => .ok (.rawExpr none "builtins.complex")
  | _ + 1, .ellipsisE, _, _ => .ok .ellipsisT
  | _ + 1, .tupleE _, _, _ => .error .translationError
  | _ + 1, .otherE, _, _ => .error .translationError

/-- Fuel-indexed left-to-right translation of an expression list (the
generator in `base.args = tuple(...)` and the `ListExpr` comprehension);
the first failure propagates. -/
def exprListF : Nat → ExprList → Option Opts → Option Expr → Except TErr (List PType)
  | 0, _, _, _ => .error .crash
  | _ + 1, .nil, _, _ => .ok []
  | fuel + 1, .cons e rest, opts, par =>
    match translateF fuel e opts par with
    | .error err => .error err
    | .ok t =>
      match exprListF fuel rest opts par with
      | .error err => .error err
      | .ok ts => .ok (t :: ts)

/-- Fuel-indexed argument-scanning loop of the `CallExpr` branch.  `ce` is
the whole call expression (passed as `_parent` to recursive translations),
`i` the running index, `nm`/`tp` the name and type accumulated so far
(`tp = none` models `typ is default_type`). -/
def callArgsF : Nat → Expr → Option Opts → ExprList → List (Option String) → Nat →
    Option String → Option PType → Except TErr (Option String × Option PType)
  | 0, _, _, _, _, _, _, _ => .error .crash
  | _ + 1, _, _, .nil, _, _, nm, tp => .ok (nm, tp)
  | _ + 1, _, _, .cons _ _, [], _, _, _ => .error .crash
  | fuel + 1, ce, opts, .cons a rest, an :: ans2, i, nm, tp =>
    match an with
    | some kw =>
      if kw = "name" then
        if nm.isSome then .error .translationError
        else
          match _extract_argument_name a with
          | .error e => .error e
          | .ok n2 => callArgsF fuel ce opts rest ans2 (i + 1) n2 tp
      else if kw = "type" then
        if tp.isSome then .error .translationError
        else
          match translateF fuel a opts (some ce) with
          | .error e => .error e
          | .ok t => callArgsF fuel ce opts rest ans2 (i + 1) nm (some t)
      else .error .translationError
    | none =>
      if i = 0 then
        match translateF fuel a opts (some ce) with
        | .error e => .error e
        | .ok t => callArgsF fuel ce opts rest ans2 (i + 1) nm (some t)
      else if i = 1 then
        match _extract_argument_name a with
        | .error e => .error e
        | .ok n2 => callArgsF fuel ce opts rest ans2 (i + 1) n2 tp
      else .error .translationError
end

/-- `expr_to_unanalyzed_type` from `mypy/exprtotype.py`: the fuel-free
entry point (`sizeOf` fuel is always sufficient). -/
def expr_to_unanalyzed_type (e : Expr) (opts : Option Opts) (par : Option Expr) :
    Except TErr PType :=
  translateF (exprSize e) e opts par

/-- The expression-list translation at its canonical fuel. -/
def exprList_to_types (l : ExprList) (opts : Option Opts) (par : Option Expr) :
    Except TErr (List PType) :=
  exprListF (exprListSize l) l opts par

/-- The `CallExpr` argument loop at its canonical fuel. -/
def callArgsLoop (ce : Expr) (opts : Option Opts) (args : ExprList)
    (ans : List (Option String)) (i : Nat) (nm : Option String) (tp : Option PType) :
    Except TErr (Option String × Option PType) :=
  callArgsF (exprListSize args) ce opts args ans i nm tp

/-! ### Data model of the pre-analyzer (`mypyc/irbuild/prebuildvisitor.py`).

Functions and lambdas are identified by numeric ids (`FuncItem` identity is
reference identity in the source).  `SymbolNode` identity distinguishes
variables from function symbols. -/

/-- A `SymbolNode` reference: a `Var` or a `FuncDef`. -/
inductive Sym : Type
  | v (id : Nat)
  | f (id : Nat)
  deriving DecidableEq

mutual
/-- Decorator expressions, as far as the pre-analyzer inspects them:
name/member/call shapes with the `node` attribute the register-call
recognizer reads; `otherD` is any other decorator expression. -/
inductive DecEx : Type
  | nameD (name : String) (node : NodeRef)
  | memberD (base : DecEx) (name : String) (node : NodeRef)
  | callD (callee : DecEx) (args : DecExList)
  | otherD

/-- Decorator-expression sequences (mutual so traversal is structural). -/
inductive DecExList : Type
  | nil
  | cons (head : DecEx) (tail : DecExList)
end

/-- Statement/expression tree of one source unit, restricted to the node
kinds the pre-analyzer reacts to.  `ref` is a `NameExpr` whose `node`
attribute may be a `Var` or `FuncDef` (others are ignored); `seq` is
statement sequencing; `funcDef`/`lam` are `FuncDef` and `LambdaExpr`
(visited identically through `visit_func`); `decorated` is a `Decorator`
node wrapping a function (its id, the per-argument first-parameter
`Instance` type ids, its body) together with its decorator list. -/
inductive Node : Type
  | skip
  | ref (node : NodeRef)
  | seq (a : Node) (b : Node)
  | funcDef (id : Nat) (argTypes : List (Option Nat)) (body : Node)
  | lam (id : Nat) (argTypes : List (Option Nat)) (body : Node)
  | decorated (id : Nat) (argTypes : List (Option Nat)) (body : Node) (decorators : DecExList)

/-- The `PreBuildVisitor` state.  The `funcs` stack stores the innermost
function first (Python appends at the end and reads `funcs[-1]`). -/
structure St : Type where
  free_variables : List (Nat × List Sym)
  symbols_to_funcs : List (Sym × Nat)
  funcs : List Nat
  prop_setters : List Nat
  encapsulating_funcs : List (Nat × List Nat)
  nested_funcs : List (Nat × Nat)
  funcs_to_decorators : List (Nat × DecExList)
  singledispatch_impls : List (Nat × List (Nat × Nat))

/-- The analyzer's initial state: every map empty. -/
def St.initial : St := ⟨[], [], [], [], [], [], [], []⟩

/-- Fuel-indexed chain walk behind `is_parent`: follow `nested_funcs` links
from `child` until `fitem` is hit (`some true`), a parentless function is
reached (`some false`), or the fuel runs out (`none`; unreachable in the
analyzer's reachable states, see `nestedAcyclic` below). -/
def isParentAux (nf : List (Nat × Nat)) (fitem : Nat) : Nat → Nat → Option Bool
  | 0, _ => none
  | fuel + 1, child =>
    match alookup nf child with
    | some parent =>
      if parent = fitem then some true else isParentAux nf fitem fuel parent
    | none => some false

/-- `PreBuildVisitor.is_parent`: is `child` nested (possibly indirectly)
within `fitem`?  One entry is consumed per step, so `length + 1` fuel is
always sufficient on acyclic maps. -/
def is_parent (nf : List (Nat × Nat)) (fitem child : Nat) : Bool :=
  (isParentAux nf fitem (nf.length + 1) child).getD false

/-- `PreBuildVisitor.add_free_variable`: mark `sym` as free in the function
recorded as its declarer. -/
def add_free_variable (sym : Sym) (s : St) : St :=
  match alookup s.symbols_to_funcs sym with
  | some fn =>
    { s with free_variables := aupdate fn (fun l => addIfAbsent sym l) [] s.free_variables }
  | none => s

/-- `PreBuildVisitor.visit_symbol_node`. -/
def visit_symbol_node (sym : Sym) (s : St) : St :=
  match s.funcs with
  | [] => s
  | top :: _ =>
    match alookup s.symbols_to_funcs sym with
    | some origFunc =>
      if is_parent s.nested_funcs top origFunc then
        let s1 := { s with symbols_to_funcs := ainsert sym top s.symbols_to_funcs }
        { s1 with
          free_variables := aupdate top (fun l => addIfAbsent sym l) [] s1.free_variables }
      else if is_parent s.nested_funcs origFunc top then
        add_free_variable sym s
      else s
    | none => { s with symbols_to_funcs := ainsert sym top s.symbols_to_funcs }

/-- `visit_name_expr`: only `Var`/`FuncDef` nodes feed the symbol rule. -/
def visit_name_ref (nd : NodeRef) (s : St) : St :=
  match nd with
  | .varRef i => visit_symbol_node (.v i) s
  | .funcRef i => visit_symbol_node (.f i) s
  | _ => s

mutual
/-- Modelled from the spec: the base traverser's walk over a decorator
expression; its only analyzer effect is routing name references through
the symbol rule. -/
def visitDecEx : DecEx → St → St
  | .nameD _ nd, s => visit_name_ref nd s
  | .memberD base _ _, s => visitDecEx base s
  | .callD callee args, s => visitDecExList args (visitDecEx callee s)
  | .otherD, s => s

/-- Walk a decorator-expression list left to right. -/
def visitDecExList : DecExList → St → St
  | .nil, s => s
  | .cons d rest, s => visitDecExList rest (visitDecEx d s)
end

/-- `registered_impl_from_possible_register_call`: a member access named
`register` on a name bound to a `Decorator` yields the dispatcher's
function id paired with the dispatch type. -/
def registered_impl_from_possible_register_call (base : DecEx) (nm : String)
    (dispatchType : Nat) : Option (Nat × Nat) :=
  if nm = "register" then
    match base with
    | .nameD _ nd =>
      match nd with
      | .decoratorRef k => some (k, dispatchType)
      | _ => none
    | _ => none
  else none

/-- The `node` attribute of a `RefExpr`-shaped decorator expression. -/
def decRefNode : DecEx → Option NodeRef
  | .nameD _ nd => some nd
  | .memberD _ _ nd => some nd
  | _ => none

/-- `get_singledispatch_register_call_info`.  `fargs` lists, per declared
parameter of the decorated function, the `TypeInfo` id of its annotation
when that annotation is an `Instance` (and `none` otherwise).  The result
pairs the dispatcher function id with the dispatch `TypeInfo` id. -/
def get_singledispatch_register_call_info (d : DecEx) (fargs : List (Option Nat)) :
    Option (Nat × Nat) :=
  match d with
  | .callD callee args =>
    match args with
    | .cons a0 .nil =>
      match decRefNode a0 with
      | some (.typeInfo ti) =>
        match callee with
        | .memberD base nm _ => registered_impl_from_possible_register_call base nm ti
        | _ => none
      | _ => none
    | _ => none
  | .memberD base nm _ =>
    match fargs with
    | [] => none
    | argTy :: _ =>
      match argTy with
      | some ti => registered_impl_from_possible_register_call base nm ti
      | none => none
  | _ => none

/-- The guard `isinstance(dec.decorators[0], MemberExpr) and
dec.decorators[0].name == 'setter'`. -/
def setterHead : DecExList → Bool
  | .cons (.memberD _ nm _) _ => nm == "setter"
  | _ => false

/-- The decorator scan of `visit_decorator`: recognized register calls are
recorded under their dispatcher in `singledispatch_impls` (in decorator
order) and deleted; the first component is the surviving decorator list
(deleting recognized indices in reverse order is exactly this filter). -/
def processDecorators (funcId : Nat) (fargs : List (Option Nat)) :
    DecExList → List (Nat × List (Nat × Nat)) → DecExList × List (Nat × List (Nat × Nat))
  | .nil, sdi => (.nil, sdi)
  | .cons d rest, sdi =>
    match get_singledispatch_register_call_info d fargs with
    | some impl =>
      processDecorators funcId fargs rest
        (aupdate impl.1 (fun l => l ++ [(impl.2, funcId)]) [] sdi)
    | none =>
      let pr := processDecorators funcId fargs rest sdi
      (.cons d pr.1, pr.2)

/-- The surviving (non-register) decorators, as a pure filter. -/
def stripRegisters (fargs : List (Option Nat)) : DecExList → DecExList
  | .nil => .nil
  | .cons d rest =>
    match get_singledispatch_register_call_info d fargs with
    | some _ => stripRegisters fargs rest
    | none => .cons d (stripRegisters fargs rest)

/-- The head of `visit_func`: when the stack is non-empty, record the new
function as a child of the stack top and as nested within it, then push. -/
def enterFunc (fid : Nat) (s : St) : St :=
  match s.funcs with
  | top :: _ =>
    { s with
      encapsulating_funcs := aupdate top (fun l => l ++ [fid]) [] s.encapsulating_funcs,
      nested_funcs := ainsert fid top s.nested_funcs,
      funcs := fid :: s.funcs }
  | [] => { s with funcs := fid :: s.funcs }

/-- The tail of `visit_func`: pop the function stack. -/
def exitFunc (s : St) : St := { s with funcs := s.funcs.tail }

/-- The `PreBuildVisitor` traversal of one source unit.  Returns the final
analyzer state together with the tree as it stands after the pass (Python
mutates `dec.decorators` in place; the returned tree records that
mutation).  The base traverser's order (a decorated function's body before
its decorator expressions) is modelled from the spec. -/
def visitNode : Node → St → St × Node
  | .skip, s => (s, .skip)
  | .ref nd, s => (visit_name_ref nd s, .ref nd)
  | .seq a b, s =>
    let pa := visitNode a s
    let pb := visitNode b pa.1
    (pb.1, .seq pa.2 pb.2)
  | .funcDef fid fargs body, s =>
    let pb := visitNode body (enterFunc fid s)
    (exitFunc pb.1, .funcDef fid fargs pb.2)
  | .lam fid fargs body, s =>
    let pb := visitNode body (enterFunc fid s)
    (exitFunc pb.1, .lam fid fargs pb.2)
  | .decorated fid fargs body decs, s =>
    match decs with
    | .nil =>
      let pb := visitNode body (enterFunc fid s)
      let s3 := exitFunc pb.1
      (visitDecExList .nil s3, .decorated fid fargs pb.2 .nil)
    | .cons d0 rest =>
      if setterHead (.cons d0 rest) then
        let s0 := { s with prop_setters := addIfAbsent fid s.prop_setters }
        let pb := visitNode body (enterFunc fid s0)
        let s3 := exitFunc pb.1
        (visitDecExList (.cons d0 rest) s3, .decorated fid fargs pb.2 (.cons d0 rest))
      else
        let pr := processDecorators fid fargs (.cons d0 rest) s.singledispatch_impls
        let s0 := { s with singledispatch_impls := pr.2 }
        match pr.1 with
        | .nil => (s0, .decorated fid fargs body .nil)
        | .cons r0 rrest =>
          let s1 :=
            { s0 with
              funcs_to_decorators := ainsert fid (.cons r0 rrest) s0.funcs_to_decorators }
          let pb := visitNode body (enterFunc fid s1)
          let s3 := exitFunc pb.1
          (visitDecExList (.cons r0 rrest) s3, .decorated fid fargs pb.2 (.cons r0 rrest))

/-- Run the whole pass on one source unit. -/
def analyze (unit : Node) : St × Node := visitNode unit St.initial

/-- The pure tree rewriting the pass performs on its input: each decorated
function whose decorator list is non-empty and not setter-headed loses its
recognized register decorators; when all of them are recognized the pass
returns before traversing the function, so its body is left untouched. -/
def stripTree : Node → Node
  | .skip => .skip
  | .ref nd => .ref nd
  | .seq a b => .seq (stripTree a) (stripTree b)
  | .funcDef fid fargs body => .funcDef fid fargs (stripTree body)
  | .lam fid fargs body => .lam fid fargs (stripTree body)
  | .decorated fid fargs body decs =>
    match decs with
    | .nil => .decorated fid fargs (stripTree body) .nil
    | .cons d0 rest =>
      if setterHead (.cons d0 rest) then
        .decorated fid fargs (stripTree body) (.cons d0 rest)
      else
        match stripRegisters fargs (.cons d0 rest) with
        | .nil => .decorated fid fargs body .nil
        | .cons r0 rrest => .decorated fid fargs (stripTree body) (.cons r0 rrest)

/-- Ids of all functions defined (at any depth) in a subtree, in entry
order.  Decorator expressions define no functions in this model. -/
def nodeFuncIds : Node → List Nat
  | .skip => []
  | .ref _ => []
  | .seq a b => nodeFuncIds a ++ nodeFuncIds b
  | .funcDef fid _ body => fid :: nodeFuncIds body
  | .lam fid _ body => fid :: nodeFuncIds body
  | .decorated fid _ body _ => fid :: nodeFuncIds body

/-- Every function id mentioned by the parts of the state that drive the
ancestor walk: the open-function stack and both sides of `nested_funcs`. -/
def mentioned (s : St) : List Nat :=
  s.funcs ++ s.nested_funcs.map Prod.fst ++ s.nested_funcs.map Prod.snd

/-- Acyclicity of the parent map, witnessed by a rank function that drops
along every link and is bounded by the number of entries. -/
def NfInv (nf : List (Nat × Nat)) : Prop :=
  ∃ rank : Nat → Nat,
    (∀ a b, alookup nf a = some b → rank b < rank a) ∧ ∀ x, rank x ≤ nf.length

/-- The elements of a decorator list, as a plain list. -/
def DecExList.toList : DecExList → List DecEx
  | .nil => []
  | .cons d rest => d :: rest.toList

/-- Equality of all analyzer state besides `free_variables` and
`symbols_to_funcs` (the two components the symbol rule writes). -/
def CoreEq (s s2 : St) : Prop :=
  s2.funcs = s.funcs ∧ s2.nested_funcs = s.nested_funcs ∧
  s2.encapsulating_funcs = s.encapsulating_funcs ∧
  s2.prop_setters = s.prop_setters ∧
  s2.funcs_to_decorators = s.funcs_to_decorators ∧
  s2.singledispatch_impls = s.singledispatch_impls

/-! ### Fuel adequacy for the translator. -/

theorem exprSize_pos : ∀ e : Expr, 1 ≤ exprSize e := by
  intro e; cases e <;> simp only [exprSize] <;> omega

theorem exprListSize_pos : ∀ l : ExprList, 1 ≤ exprListSize l := by
  intro l; cases l <;> simp only [exprListSize] <;> omega

/-- Any two sufficient fuels compute the same translation: the fuel is an
implementation artifact, not part of the modelled behavior. -/
theorem translate_stable :
    ∀ f1 : Nat,
      (∀ f2 e opts par, exprSize e ≤ f1 → exprSize e ≤ f2 →
        translateF f1 e opts par = translateF f2 e opts par) ∧
      (∀ f2 l opts par, exprListSize l ≤ f1 → exprListSize l ≤ f2 →
        exprListF f1 l opts par = exprListF f2 l opts par) ∧
      (∀ f2 ce opts args ans i nm tp, exprListSize args ≤ f1 → exprListSize args ≤ f2 →
        callArgsF f1 ce opts args ans i nm tp = callArgsF f2 ce opts args ans i nm tp) := by
  intro f1
  induction f1 using Nat.strong_induction_on with
  | _ f1 IH =>
  refine ⟨?_, ?_, ?_⟩
  · intro f2 e opts par h1 h2
    match f1, f2 with
    | 0, _ => exact absurd h1 (by have := exprSize_pos e; omega)
    | _ + 1, 0 => exact absurd h2 (by have := exprSize_pos e; omega)
    | k1 + 1, k2 + 1 =>
      cases e with
      | indexE b idx =>
        have hb : exprSize b ≤ k1 ∧ exprSize b ≤ k2 := by
          simp only [exprSize] at h1 h2; have := exprSize_pos idx; omega
        have hi : exprSize idx ≤ k1 ∧ exprSize idx ≤ k2 := by
          simp only [exprSize] at h1 h2; have := exprSize_pos b; omega
        have e1 := (IH k1 (by omega)).1 k2 b opts (some (.indexE b idx)) hb.1 hb.2
        have e2 := (IH k1 (by omega)).1 k2 idx opts (some (.indexE b idx)) hi.1 hi.2
        cases idx with
        | tupleE items =>
          have hL : exprListSize items ≤ k1 ∧ exprListSize items ≤ k2 := by
            simp only [exprSize, exprListSize] at h1 h2; have := exprSize_pos b; omega
          have e3 := (IH k1 (by omega)).2.1 k2 items opts
            (some (.indexE b (.tupleE items))) hL.1 hL.2
          cases items with
          | nil => simp only [translateF, e1, e3]
          | cons a0 arest =>
            have ha : exprSize a0 ≤ k1 ∧ exprSize a0 ≤ k2 := by
              simp only [exprSize, exprListSize] at h1 h2
              have := exprSize_pos b; have := exprListSize_pos arest; omega
            have e4 := (IH k1 (by omega)).1 k2 a0 opts
              (some (.indexE b (.tupleE (.cons a0 arest)))) ha.1 ha.2
            simp only [translateF, e1, e3, e4]
        | nameE nm fn => simp only [translateF, e1, e2]
        | memberE b2 nm fn => simp only [translateF, e1, e2]
        | indexE b2 i2 => simp only [translateF, e1, e2]
        | listE it2 => simp only [translateF, e1, e2]
        | callE c2 a2 n2 => simp only [translateF, e1, e2]
        | opE o2 l2 r2 => simp only [translateF, e1, e2]
        | unaryE o2 op2 => simp only [translateF, e1, e2]
        | intE v2 => simp only [translateF, e1, e2]
        | floatE => simp only [translateF, e1, e2]
        | complexE => simp only [translateF, e1, e2]
        | strE v2 f3 => simp only [translateF, e1, e2]
        | bytesE v2 => simp only [translateF, e1, e2]
        | unicodeE v2 => simp only [translateF, e1, e2]
        | ellipsisE => simp only [translateF, e1, e2]
        | otherE => simp only [translateF, e1, e2]
      | opE op l r =>
        have hl : exprSize l ≤ k1 ∧ exprSize l ≤ k2 := by
          simp only [exprSize] at h1 h2; have := exprSize_pos r; omega
        have hr : exprSize r ≤ k1 ∧ exprSize r ≤ k2 := by
          simp only [exprSize] at h1 h2; have := exprSize_pos l; omega
        have e1 := (IH k1 (by omega)).1 k2 l opts none hl.1 hl.2
        have e2 := (IH k1 (by omega)).1 k2 r opts none hr.1 hr.2
        simp only [translateF, e1, e2]
      | callE callee args argNames =>
        have ha : exprListSize args ≤ k1 ∧ exprListSize args ≤ k2 := by
          simp only [exprSize] at h1 h2; have := exprSize_pos callee; omega
        have e1 := (IH k1 (by omega)).2.2 k2 (.callE callee args argNames) opts
          args argNames 0 none none ha.1 ha.2
        simp only [translateF, e1]
      | listE items =>
        have hL : exprListSize items ≤ k1 ∧ exprListSize items ≤ k2 := by
          simp only [exprSize] at h1 h2; omega
        have e1 := (IH k1 (by omega)).2.1 k2 items opts (some (.listE items)) hL.1 hL.2
        simp only [translateF, e1]
      | unaryE op operand =>
        have ho : exprSize operand ≤ k1 ∧ exprSize operand ≤ k2 := by
          simp only [exprSize] at h1 h2; omega
        have e1 := (IH k1 (by omega)).1 k2 operand opts none ho.1 ho.2
        simp only [translateF, e1]
      | nameE nm fn => simp only [translateF]
      | memberE base nm fn => simp only [translateF]
      | tupleE items => simp only [translateF]
      | intE v => simp only [translateF]
      | floatE => simp only [translateF]
      | complexE => simp only [translateF]
      | strE v f3 => simp only [translateF]
      | bytesE v => simp only [translateF]
      | unicodeE v => simp only [translateF]
      | ellipsisE => simp only [translateF]
      | otherE => simp only [translateF]
  · intro f2 l opts par h1 h2
    match f1, f2 with
    | 0, _ => exact absurd h1 (by have := exprListSize_pos l; omega)
    | _ + 1, 0 => exact absurd h2 (by have := exprListSize_pos l; omega)
    | k1 + 1, k2 + 1 =>
      cases l with
      | nil => simp only [exprListF]
      | cons e rest =>
        have he : exprSize e ≤ k1 ∧ exprSize e ≤ k2 := by
          simp only [exprListSize] at h1 h2; have := exprListSize_pos rest; omega
        have hr : exprListSize rest ≤ k1 ∧ exprListSize rest ≤ k2 := by
          simp only [exprListSize] at h1 h2; have := exprSize_pos e; omega
        have e1 := (IH k1 (by omega)).1 k2 e opts par he.1 he.2
        have e2 := (IH k1 (by omega)).2.1 k2 rest opts par hr.1 hr.2
        simp only [exprListF, e1, e2]
  · intro f2 ce opts args ans i nm tp h1 h2
    match f1, f2 with
    | 0, _ => exact absurd h1 (by have := exprListSize_pos args; omega)
    | _ + 1, 0 => exact absurd h2 (by have := exprListSize_pos args; omega)
    | k1 + 1, k2 + 1 =>
      cases args with
      | nil => simp only [callArgsF]
      | cons a rest =>
        cases ans with
        | nil => simp only [callArgsF]
        | cons an ans2 =>
          have ha : exprSize a ≤ k1 ∧ exprSize a ≤ k2 := by
            simp only [exprListSize] at h1 h2; have := exprListSize_pos rest; omega
          have hr : exprListSize rest ≤ k1 ∧ exprListSize rest ≤ k2 := by
            simp only [exprListSize] at h1 h2; have := exprSize_pos a; omega
          have e1 := (IH k1 (by omega)).1 k2 a opts (some ce) ha.1 ha.2
          have e2 : ∀ j n t, callArgsF k1 ce opts rest ans2 j n t =
              callArgsF k2 ce opts rest ans2 j n t :=
            fun j n t => (IH k1 (by omega)).2.2 k2 ce opts rest ans2 j n t hr.1 hr.2
          simp only [callArgsF, e1, e2]

/-- Rewrite an adequately-fueled call to the canonical (wrapper) form. -/
theorem translateF_eq_e2ut (fuel : Nat) (e : Expr) (opts : Option Opts)
    (par : Option Expr) (h : exprSize e ≤ fuel) :
    translateF fuel e opts par = expr_to_unanalyzed_type e opts par :=
  (translate_stable fuel).1 (exprSize e) e opts par h le_rfl

/-- Rewrite an adequately-fueled list call to the canonical form. -/
theorem exprListF_eq_elt (fuel : Nat) (l : ExprList) (opts : Option Opts)
    (par : Option Expr) (h : exprListSize l ≤ fuel) :
    exprListF fuel l opts par = exprList_to_types l opts par :=
  (translate_stable fuel).2.1 (exprListSize l) l opts par h le_rfl

/-- Rewrite an adequately-fueled argument-loop call to the canonical form. -/
theorem callArgsF_eq_loop (fuel : Nat) (ce : Expr) (opts : Option Opts)
    (args : ExprList) (ans : List (Option String)) (i : Nat) (nm : Option String)
    (tp : Option PType) (h : exprListSize args ≤ fuel) :
    callArgsF fuel ce opts args ans i nm tp = callArgsLoop ce opts args ans i nm tp :=
  (translate_stable fuel).2.2 (exprListSize args) ce opts args ans i nm tp h le_rfl

/-! ### Canonical-form equations for `expr_to_unanalyzed_type`. -/

theorem e2ut_name (nm : String) (fn : Option String) (opts : Option Opts)
    (par : Option Expr) :
    expr_to_unanalyzed_type (.nameE nm fn) opts par =
      if nm = "True" then .ok (.rawExpr (some (.b true)) "builtins.bool")
      else if nm = "False" then .ok (.rawExpr (some (.b false)) "builtins.bool")
      else .ok (.unbound nm [] false) := by
  show translateF (0 + 1) (.nameE nm fn) opts par = _
  rw [translateF]

theorem e2ut_unary (op : String) (operand : Expr) (opts : Option Opts)
    (par : Option Expr) :
    expr_to_unanalyzed_type (.unaryE op operand) opts par =
      match expr_to_unanalyzed_type operand opts none with
      | .error e => .error e
      | .ok t =>
        match t with
        | .rawExpr lv btn =>
          match lv with
          | some (.i n) =>
            if op = "-" then .ok (.rawExpr (some (.i (-n))) btn)
            else .error .translationError
          | some (.b v) =>
            if op = "-" then .ok (.rawExpr (some (.i (if v then (-1 : Int) else 0))) btn)
            else .error .translationError
          | _ => .error .translationError
        | _ => .error .translationError := by
  show translateF (exprSize (.unaryE op operand)) _ _ _ = _
  simp only [exprSize, translateF]
  rw [translateF_eq_e2ut _ _ _ _ le_rfl]

theorem e2ut_op (op : String) (l r : Expr) (opts : Option Opts) (par : Option Expr) :
    expr_to_unanalyzed_type (.opE op l r) opts par =
      if op = "|" ∧ unionSyntaxEnabled opts = true then
        match expr_to_unanalyzed_type l opts none with
        | .error e => .error e
        | .ok tl =>
          match expr_to_unanalyzed_type r opts none with
          | .error e => .error e
          | .ok tr => .ok (.unionT [tl, tr])
      else .error .translationError := by
  show translateF (exprSize (.opE op l r)) _ _ _ = _
  simp only [exprSize, translateF]
  rw [translateF_eq_e2ut _ l _ _ (by have := exprSize_pos r; omega),
    translateF_eq_e2ut _ r _ _ (by have := exprSize_pos l; omega)]

theorem e2ut_index_tuple (b : Expr) (items : ExprList) (opts : Option Opts)
    (par : Option Expr) :
    expr_to_unanalyzed_type (.indexE b (.tupleE items)) opts par =
      match expr_to_unanalyzed_type b opts (some (.indexE b (.tupleE items))) with
      | .error e => .error e
      | .ok (.unbound nm args eti) =>
        match args with
        | _ :: _ => .error .translationError
        | [] =>
          if isAnnotatedRef b then
            match items with
            | .nil => .error .crash
            | .cons a0 _ =>
              expr_to_unanalyzed_type a0 opts (some (.indexE b (.tupleE items)))
          else
            match exprList_to_types items opts (some (.indexE b (.tupleE items))) with
            | .error e => .error e
            | .ok ts => .ok (.unbound nm ts (if ts.isEmpty then true else eti))
      | .ok _ => .error .translationError := by
  show translateF (exprSize (.indexE b (.tupleE items))) _ _ _ = _
  simp only [exprSize]
  cases items with
  | nil =>
    simp only [exprListSize, translateF]
    rw [translateF_eq_e2ut _ b _ _ (by omega),
      exprListF_eq_elt _ _ _ _ (by simp only [exprListSize]; have := exprSize_pos b; omega)]
  | cons a0 arest =>
    simp only [translateF]
    rw [translateF_eq_e2ut _ b _ _ (by have := exprListSize_pos (.cons a0 arest); omega),
      translateF_eq_e2ut _ a0 _ _
        (by simp only [exprListSize]; have := exprListSize_pos arest; omega),
      exprListF_eq_elt _ (.cons a0 arest) _ _ (by have := exprSize_pos b; omega)]

theorem e2ut_index_single (b idx : Expr) (opts : Option Opts) (par : Option Expr)
    (hnt : ∀ items, idx ≠ .tupleE items) :
    expr_to_unanalyzed_type (.indexE b idx) opts par =
      match expr_to_unanalyzed_type b opts (some (.indexE b idx)) with
      | .error e => .error e
      | .ok (.unbound nm args eti) =>
        match args with
        | _ :: _ => .error .translationError
        | [] =>
          if isAnnotatedRef b then
            expr_to_unanalyzed_type idx opts (some (.indexE b idx))
          else
            match expr_to_unanalyzed_type idx opts (some (.indexE b idx)) with
            | .error e => .error e
            | .ok t => .ok (.unbound nm [t] eti)
      | .ok _ => .error .translationError := by
  show translateF (exprSize (.indexE b idx)) _ _ _ = _
  simp only [exprSize]
  have e1 := translateF_eq_e2ut (exprSize b + exprSize idx) b opts
    (some (.indexE b idx)) (by have := exprSize_pos idx; omega)
  have e2 := translateF_eq_e2ut (exprSize b + exprSize idx) idx opts
    (some (.indexE b idx)) (by have := exprSize_pos b; omega)
  cases idx with
  | tupleE items => exact absurd rfl (hnt items)
  | nameE nm fn => rw [translateF, e1, e2] <;> nofun
  | memberE b2 nm fn => rw [translateF, e1, e2] <;> nofun
  | indexE b2 i2 => rw [translateF, e1, e2] <;> nofun
  | listE it2 => rw [translateF, e1, e2] <;> nofun
  | callE c2 a2 n2 => rw [translateF, e1, e2] <;> nofun
  | opE o2 l2 r2 => rw [translateF, e1, e2] <;> nofun
  | unaryE o2 op2 => rw [translateF, e1, e2] <;> nofun
  | intE v2 => rw [translateF, e1, e2] <;> nofun
  | floatE => rw [translateF, e1, e2] <;> nofun
  | complexE => rw [translateF, e1, e2] <;> nofun
  | strE v2 f3 => rw [translateF, e1, e2] <;> nofun
  | bytesE v2 => rw [translateF, e1, e2] <;> nofun
  | unicodeE v2 => rw [translateF, e1, e2] <;> nofun
  | ellipsisE => rw [translateF, e1, e2] <;> nofun
  | otherE => rw [translateF, e1, e2] <;> nofun

theorem e2ut_list (items : ExprList) (opts : Option Opts) (par : Option Expr) :
    expr_to_unanalyzed_type (.listE items) opts par =
      match exprList_to_types items opts (some (.listE items)) with
      | .error e => .error e
      | .ok ts => .ok (.typeList ts) := by
  show translateF (exprSize (.listE items)) _ _ _ = _
  simp only [exprSize, translateF]
  rw [exprListF_eq_elt _ _ _ _ le_rfl]

theorem e2ut_call (callee : Expr) (args : ExprList) (argNames : List (Option String))
    (opts : Option Opts) (par : Option Expr) :
    expr_to_unanalyzed_type (.callE callee args argNames) opts par =
      if isListParent par then
        match calleeConstName callee with
        | none => .error .translationError
        | some constName =>
          match callArgsLoop (.callE callee args argNames) opts args argNames 0 none none with
          | .error e => .error e
          | .ok (nm, tp) => .ok (.callableArg (tp.getD .anyT) nm constName)
      else .error .translationError := by
  show translateF (exprSize (.callE callee args argNames)) _ _ _ = _
  simp only [exprSize, translateF]
  rw [callArgsF_eq_loop _ _ _ _ _ _ _ _ (by have := exprSize_pos callee; omega)]

theorem elt_cons (e : Expr) (rest : ExprList) (opts : Option Opts) (par : Option Expr) :
    exprList_to_types (.cons e rest) opts par =
      match expr_to_unanalyzed_type e opts par with
      | .error err => .error err
      | .ok t =>
        match exprList_to_types rest opts par with
        | .error err => .error err
        | .ok ts => .ok (t :: ts) := by
  show exprListF (exprListSize (.cons e rest)) _ _ _ = _
  simp only [exprListSize, exprListF]
  rw [translateF_eq_e2ut _ _ _ _ (by have := exprListSize_pos rest; omega),
    exprListF_eq_elt _ _ _ _ (by have := exprSize_pos e; omega)]

theorem elt_nil (opts : Option Opts) (par : Option Expr) :
    exprList_to_types .nil opts par = .ok [] := by rfl

theorem callArgsLoop_cons (ce : Expr) (opts : Option Opts) (a : Expr) (rest : ExprList)
    (an : Option String) (ans2 : List (Option String)) (i : Nat) (nm : Option String)
    (tp : Option PType) :
    callArgsLoop ce opts (.cons a rest) (an :: ans2) i nm tp =
      match an with
      | some kw =>
        if kw = "name" then
          if nm.isSome then .error .translationError
          else
            match _extract_argument_name a with
            | .error e => .error e
            | .ok n2 => callArgsLoop ce opts rest ans2 (i + 1) n2 tp
        else if kw = "type" then
          if tp.isSome then .error .translationError
          else
            match expr_to_unanalyzed_type a opts (some ce) with
            | .error e => .error e
            | .ok t => callArgsLoop ce opts rest ans2 (i + 1) nm (some t)
        else .error .translationError
      | none =>
        if i = 0 then
          match expr_to_unanalyzed_type a opts (some ce) with
          | .error e => .error e
          | .ok t => callArgsLoop ce opts rest ans2 (i + 1) nm (some t)
        else if i = 1 then
          match _extract_argument_name a with
          | .error e => .error e
          | .ok n2 => callArgsLoop ce opts rest ans2 (i + 1) n2 tp
        else .error .translationError := by
  show callArgsF (exprListSize (.cons a rest)) _ _ _ _ _ _ _ = _
  simp only [exprListSize, callArgsF]
  have e1 := translateF_eq_e2ut (exprSize a + exprListSize rest) a opts (some ce)
    (by have := exprListSize_pos rest; omega)
  have e2 : ∀ j n t, callArgsF (exprSize a + exprListSize rest) ce opts rest ans2 j n t =
      callArgsLoop ce opts rest ans2 j n t :=
    fun j n t => callArgsF_eq_loop _ _ _ _ _ _ _ _ (by have := exprSize_pos a; omega)
  simp only [e1, e2]

theorem callArgsLoop_nil (ce : Expr) (opts : Option Opts) (ans : List (Option String))
    (i : Nat) (nm : Option String) (tp : Option PType) :
    callArgsLoop ce opts .nil ans i nm tp = .ok (nm, tp) := by rfl

theorem e2ut_int (v : Int) (opts : Option Opts) (par : Option Expr) :
    expr_to_unanalyzed_type (.intE v) opts par =
      .ok (.rawExpr (some (.i v)) "builtins.int") := by
  show translateF (0 + 1) (.intE v) opts par = _
  rw [translateF]

/-! ### Claims C2-C6: the type-expression translator. -/

/-- C2 counterexample: re-subscripting the `Unbound` produced by an
empty-tuple subscription (`A[()][str]`) does not raise; it succeeds, because
`A[()]` leaves `args` empty and the guard only rejects non-empty `args`. -/
theorem c2_counterexample :
    expr_to_unanalyzed_type
        (.indexE (.indexE (.nameE "A" none) (.tupleE .nil)) (.nameE "str" none)) none none =
      .ok (.unbound "A" [.unbound "str" [] false] true) ∧
    expr_to_unanalyzed_type
        (.indexE (.indexE (.nameE "A" none) (.tupleE .nil)) (.nameE "str" none)) none none ≠
      .error .translationError :=
  ⟨rfl, by intro h; exact nomatch h⟩

/-- C2 (amended): subscripting an expression whose base translates to an
`Unbound` with non-empty `args` raises `TranslationError`; in particular
`translate(Index(Index(Name "A", Name "int"), Name "str"))` fails.  An
`Unbound` produced by an empty-tuple subscription has empty `args`, so
re-subscripting it succeeds. -/
theorem c2_resubscription :
    (∀ (b i : Expr) (n : String) (args : List PType) (eti : Bool)
        (opts : Option Opts) (par : Option Expr),
      expr_to_unanalyzed_type b opts (some (.indexE b i)) = .ok (.unbound n args eti) →
      args ≠ [] →
      expr_to_unanalyzed_type (.indexE b i) opts par = .error .translationError) ∧
    expr_to_unanalyzed_type
        (.indexE (.indexE (.nameE "A" none) (.nameE "int" none)) (.nameE "str" none))
        none none =
      .error .translationError ∧
    expr_to_unanalyzed_type
        (.indexE (.indexE (.nameE "A" none) (.tupleE .nil)) (.nameE "str" none)) none none =
      .ok (.unbound "A" [.unbound "str" [] false] true) := by
  refine ⟨?_, rfl, rfl⟩
  intro b i n args eti opts par h hne
  cases args with
  | nil => exact absurd rfl hne
  | cons a as =>
    cases i
    case tupleE items => rw [e2ut_index_tuple, h]
    all_goals rw [e2ut_index_single _ _ _ _ (by nofun), h]

/-- C2 witness: the amended guard applied to the double subscription
`A[int][str]`. -/
theorem c2_resubscription_witness :
    expr_to_unanalyzed_type
        (.indexE (.indexE (.nameE "A" none) (.nameE "int" none)) (.nameE "str" none))
        none none =
      .error .translationError :=
  c2_resubscription.1 (.indexE (.nameE "A" none) (.nameE "int" none))
    (.nameE "str" none) "A" [.unbound "int" [] false] false none none (by rfl)
    (by intro h; exact nomatch h)

/-- C3 counterexample: with version (3, 10) supplied, translating
`BinaryOp(Tuple([]), "|", Name "str")` still fails (the left operand is not
a valid type expression), so "succeeds exactly when the version is >=
(3, 10)" is false as a statement about every operand pair. -/
theorem c3_counterexample :
    unionSyntaxEnabled (some ⟨(3, 10)⟩) = true ∧
    expr_to_unanalyzed_type (.opE "|" (.tupleE .nil) (.nameE "str" none))
        (some ⟨(3, 10)⟩) none =
      .error .translationError :=
  ⟨rfl, rfl⟩

/-- C3 (amended): `BinaryOp(l, "|", r)` translation is version-gated: with
no options, or a version below (3, 10), it always fails; with a version >=
(3, 10) it yields `UnionType([tl, tr])` whenever both operands translate,
and propagates the operand's failure when either operand fails — the left
operand's error when the left fails, and the right operand's error when the
left succeeds and the right fails. -/
theorem c3_union_version_gate :
    (∀ (l r : Expr) (par : Option Expr),
      expr_to_unanalyzed_type (.opE "|" l r) none par = .error .translationError) ∧
    (∀ (l r : Expr) (par : Option Expr) (o : Opts),
      pyVerGe310 o.python_version = false →
      expr_to_unanalyzed_type (.opE "|" l r) (some o) par = .error .translationError) ∧
    (∀ (l r : Expr) (par : Option Expr) (o : Opts) (tl tr : PType),
      pyVerGe310 o.python_version = true →
      expr_to_unanalyzed_type l (some o) none = .ok tl →
      expr_to_unanalyzed_type r (some o) none = .ok tr →
      expr_to_unanalyzed_type (.opE "|" l r) (some o) par = .ok (.unionT [tl, tr])) ∧
    (∀ (l r : Expr) (par : Option Expr) (o : Opts) (e : TErr),
      pyVerGe310 o.python_version = true →
      expr_to_unanalyzed_type l (some o) none = .error e →
      expr_to_unanalyzed_type (.opE "|" l r) (some o) par = .error e) ∧
    (∀ (l r : Expr) (par : Option Expr) (o : Opts) (tl : PType) (e : TErr),
      pyVerGe310 o.python_version = true →
      expr_to_unanalyzed_type l (some o) none = .ok tl →
      expr_to_unanalyzed_type r (some o) none = .error e →
      expr_to_unanalyzed_type (.opE "|" l r) (some o) par = .error e) := by
  refine ⟨?_, ?_, ?_, ?_, ?_⟩
  · intro l r par
    simp [e2ut_op, unionSyntaxEnabled]
  · intro l r par o h
    simp [e2ut_op, unionSyntaxEnabled, h]
  · intro l r par o tl tr h hl hr
    rw [e2ut_op]
    simp only [unionSyntaxEnabled, h, hl, hr]
    simp
  · intro l r par o e h hl
    rw [e2ut_op]
    simp only [unionSyntaxEnabled, h, hl]
    simp
  · intro l r par o tl e h hl hr
    rw [e2ut_op]
    simp only [unionSyntaxEnabled, h, hl, hr]
    simp

/-- C4: indexing a plain (unanalyzed, non-True/False) name by a tuple
literal translates each element in order into one subscript argument, and
an empty tuple yields `args = []` with `empty_tuple_index = true`; the
`Dict[int, str]` and `Tuple[()]` examples are as specified, and the
empty-tuple-subscripted descriptor differs from the bare one. -/
theorem c4_tuple_subscription :
    (∀ (n : String) (items : ExprList) (ts : List PType)
        (opts : Option Opts) (par : Option Expr),
      n ≠ "True" → n ≠ "False" →
      exprList_to_types items opts (some (.indexE (.nameE n none) (.tupleE items))) =
        .ok ts →
      expr_to_unanalyzed_type (.indexE (.nameE n none) (.tupleE items)) opts par =
        .ok (.unbound n ts ts.isEmpty)) ∧
    expr_to_unanalyzed_type
        (.indexE (.nameE "Dict" none)
          (.tupleE (.cons (.nameE "int" none) (.cons (.nameE "str" none) .nil))))
        none none =
      .ok (.unbound "Dict" [.unbound "int" [] false, .unbound "str" [] false] false) ∧
    expr_to_unanalyzed_type (.indexE (.nameE "Tuple" none) (.tupleE .nil)) none none =
      .ok (.unbound "Tuple" [] true) ∧
    expr_to_unanalyzed_type (.nameE "Tuple" none) none none =
      .ok (.unbound "Tuple" [] false) ∧
    (PType.unbound "Tuple" [] true ≠ .unbound "Tuple" [] false) := by
  refine ⟨?_, rfl, rfl, rfl, by simp⟩
  intro n items ts opts par hT hF h
  rw [e2ut_index_tuple, e2ut_name, if_neg hT, if_neg hF]
  simp only [isAnnotatedRef, refExprFullname]
  rw [h]
  cases hts : ts.isEmpty <;> simp [hts]

/-- C4 witness: the general tuple-subscription rule applied to
`Dict[int, str]`. -/
theorem c4_tuple_subscription_witness :
    expr_to_unanalyzed_type
        (.indexE (.nameE "Dict" none)
          (.tupleE (.cons (.nameE "int" none) (.cons (.nameE "str" none) .nil))))
        none none =
      .ok (.unbound "Dict" [.unbound "int" [] false, .unbound "str" [] false] false) :=
  c4_tuple_subscription.1 "Dict"
    (.cons (.nameE "int" none) (.cons (.nameE "str" none) .nil))
    [.unbound "int" [] false, .unbound "str" [] false] none none
    (by intro h; exact nomatch h) (by intro h; exact nomatch h) (by rfl)

/-- C5 counterexample: a doubly-negated integer literal does not raise: the
inner negation yields `RawExpressionType(-5, "int")`, whose literal is again
an int, so the outer minus negates it back to 5. -/
theorem c5_counterexample :
    expr_to_unanalyzed_type (.unaryE "-" (.unaryE "-" (.intE 5))) none none =
      .ok (.rawExpr (some (.i 5)) "builtins.int") ∧
    expr_to_unanalyzed_type (.unaryE "-" (.unaryE "-" (.intE 5))) none none ≠
      .error .translationError :=
  ⟨rfl, by intro h; exact nomatch h⟩

/-- C5 (amended): a unary expression translates successfully exactly when
the operator is `-` and the operand's translation is a
`RawExpressionType` whose literal value is an int or a bool (Python's
`isinstance(·, int)` accepts bools): `-IntLiteral(v)` yields
`RawExpressionType(-v, "int")`, a negated `True` yields
`RawExpressionType(-1, "builtins.bool")`, any operator other than `-`
fails, an operand translating to anything without an int/bool literal
fails, and `-FloatLiteral` fails. -/
theorem c5_unary_minus :
    (∀ (v : Int) (opts : Option Opts) (par : Option Expr),
      expr_to_unanalyzed_type (.unaryE "-" (.intE v)) opts par =
        .ok (.rawExpr (some (.i (-v))) "builtins.int")) ∧
    (∀ (op : String) (operand : Expr) (opts : Option Opts) (par : Option Expr),
      op ≠ "-" →
      ∃ e, expr_to_unanalyzed_type (.unaryE op operand) opts par = .error e) ∧
    (∀ (operand : Expr) (opts : Option Opts) (par : Option Expr) (t : PType),
      expr_to_unanalyzed_type operand opts none = .ok t →
      (∀ n btn, t ≠ .rawExpr (some (.i n)) btn) →
      (∀ v btn, t ≠ .rawExpr (some (.b v)) btn) →
      expr_to_unanalyzed_type (.unaryE "-" operand) opts par =
        .error .translationError) ∧
    expr_to_unanalyzed_type (.unaryE "-" .floatE) none none =
      .error .translationError ∧
    (∀ (opts : Option Opts) (par : Option Expr),
      expr_to_unanalyzed_type (.unaryE "-" (.nameE "True" none)) opts par =
        .ok (.rawExpr (some (.i (-1))) "builtins.bool")) := by
  refine ⟨?_, ?_, ?_, rfl, ?_⟩
  · intro v opts par
    rw [e2ut_unary, e2ut_int]
    simp
  · intro op operand opts par hop
    rw [e2ut_unary]
    cases h2 : expr_to_unanalyzed_type operand opts none with
    | error e => exact ⟨e, rfl⟩
    | ok t =>
      refine ⟨.translationError, ?_⟩
      cases t with
      | rawExpr lv btn =>
        cases lv with
        | none => rfl
        | some lit =>
          cases lit with
          | i n => simp [if_neg hop]
          | b v => simp [if_neg hop]
          | s v => rfl
      | unbound a b c => rfl
      | typeList a => rfl
      | anyT => rfl
      | callableArg a b c => rfl
      | ellipsisT => rfl
      | unionT a => rfl
      | parsedString a b c => rfl
  · intro operand opts par t h h1 h2
    rw [e2ut_unary, h]
    cases t with
    | rawExpr lv btn =>
      cases lv with
      | none => rfl
      | some lit =>
        cases lit with
        | i n => exact absurd rfl (h1 n btn)
        | b v => exact absurd rfl (h2 v btn)
        | s v => rfl
    | unbound a b c => rfl
    | typeList a => rfl
    | anyT => rfl
    | callableArg a b c => rfl
    | ellipsisT => rfl
    | unionT a => rfl
    | parsedString a b c => rfl
  · intro opts par
    rw [e2ut_unary, e2ut_name]
    simp

/-- C5 witness: the amended rule applied to `-5`, to `!5` (a non-minus
operator), and to a float-translating operand. -/
theorem c5_unary_minus_witness :
    expr_to_unanalyzed_type (.unaryE "-" (.intE 5)) none none =
      .ok (.rawExpr (some (.i (-5))) "builtins.int") ∧
    (∃ e, expr_to_unanalyzed_type (.unaryE "!" (.intE 5)) none none = .error e) ∧
    expr_to_unanalyzed_type (.unaryE "-" .floatE) none none =
      .error .translationError :=
  ⟨c5_unary_minus.1 5 none none,
   c5_unary_minus.2.1 "!" (.intE 5) none none (by intro h; exact nomatch h),
   c5_unary_minus.2.2.1 .floatE none none (.rawExpr none "builtins.float") (by rfl)
     (by intro n btn h; exact nomatch h) (by intro v btn h; exact nomatch h)⟩

/-- C6 counterexample: supplying the argument name twice — first by the
keyword `name`, then positionally at position 1 — does not raise: the
positional assignment silently overwrites the keyword-supplied name, so
`[Arg(name="x", "y")]` translates to a `CallableArgument` named `"y"`. -/
theorem c6_counterexample :
    expr_to_unanalyzed_type
        (.listE (.cons
          (.callE (.nameE "Arg" none)
            (.cons (.strE "x" true) (.cons (.strE "y" true) .nil))
            [some "name", none])
          .nil)) none none =
      .ok (.typeList [.callableArg .anyT (some "y") "Arg"]) ∧
    expr_to_unanalyzed_type
        (.listE (.cons
          (.callE (.nameE "Arg" none)
            (.cons (.strE "x" true) (.cons (.strE "y" true) .nil))
            [some "name", none])
          .nil)) none none ≠
      .error .translationError :=
  ⟨rfl, by intro h; exact nomatch h⟩

/-- C6 (amended): in the CallableArgument argument scan, a `type` supplied
twice always raises, a keyword `name` raises when a name is already set,
and a third or later positional argument raises; but a positional name at
position 1 overwrites any previously supplied name without error (the
source checks duplicates only on the keyword paths). -/
theorem c6_callable_argument_duplicates :
    (∀ (ce : Expr) (opts : Option Opts) (a : Expr) (rest : ExprList)
        (ans2 : List (Option String)) (i : Nat) (s : String) (tp : Option PType),
      callArgsLoop ce opts (.cons a rest) (some "name" :: ans2) i (some s) tp =
        .error .translationError) ∧
    (∀ (ce : Expr) (opts : Option Opts) (a : Expr) (rest : ExprList)
        (ans2 : List (Option String)) (i : Nat) (nm : Option String) (t0 : PType),
      callArgsLoop ce opts (.cons a rest) (some "type" :: ans2) i nm (some t0) =
        .error .translationError) ∧
    (∀ (ce : Expr) (opts : Option Opts) (a : Expr) (rest : ExprList)
        (ans2 : List (Option String)) (i : Nat) (nm : Option String) (tp : Option PType),
      2 ≤ i →
      callArgsLoop ce opts (.cons a rest) (none :: ans2) i nm tp =
        .error .translationError) ∧
    (∀ (ce : Expr) (opts : Option Opts) (v : String) (b3 : Bool) (rest : ExprList)
        (ans2 : List (Option String)) (nm : Option String) (tp : Option PType),
      callArgsLoop ce opts (.cons (.strE v b3) rest) (none :: ans2) 1 nm tp =
        callArgsLoop ce opts rest ans2 2 (some v) tp) := by
  refine ⟨?_, ?_, ?_, ?_⟩
  · intro ce opts a rest ans2 i s tp
    rw [callArgsLoop_cons]
    simp
  · intro ce opts a rest ans2 i nm t0
    rw [callArgsLoop_cons]
    simp
  · intro ce opts a rest ans2 i nm tp hi
    rw [callArgsLoop_cons]
    simp only []
    rw [if_neg (by omega), if_neg (by omega)]
  · intro ce opts v b3 rest ans2 nm tp
    rw [callArgsLoop_cons]
    simp [_extract_argument_name]

/-- C6 witness: the amended duplicate rules at concrete arguments. -/
theorem c6_callable_argument_duplicates_witness :
    callArgsLoop (.nameE "Arg" none) none (.cons (.strE "x" true) .nil)
        [some "name"] 2 (some "z") none =
      .error .translationError ∧
    callArgsLoop (.nameE "Arg" none) none (.cons (.strE "x" true) .nil)
        [none] 2 none none =
      .error .translationError :=
  ⟨c6_callable_argument_duplicates.1 (.nameE "Arg" none) none (.strE "x" true) .nil
     [] 2 "z" none,
   c6_callable_argument_duplicates.2.2.1 (.nameE "Arg" none) none (.strE "x" true) .nil
     [] 2 none none (by omega)⟩

/-! ### Association-list lemmas. -/

theorem alookup_aupdate_self {α β : Type} [DecidableEq α] (k : α) (f : β → β) (d : β)
    (l : List (α × β)) :
    alookup (aupdate k f d l) k = some (f ((alookup l k).getD d)) := by
  induction l with
  | nil => simp [aupdate, alookup]
  | cons p rest ih =>
    obtain ⟨a, b⟩ := p
    by_cases hk : k = a
    · subst hk; simp [aupdate, alookup]
    · simp [aupdate, alookup, hk, ih]

theorem alookup_aupdate_ne {α β : Type} [DecidableEq α] (k k2 : α) (f : β → β) (d : β)
    (l : List (α × β)) (h : k2 ≠ k) :
    alookup (aupdate k f d l) k2 = alookup l k2 := by
  induction l with
  | nil => simp [aupdate, alookup, h]
  | cons p rest ih =>
    obtain ⟨a, b⟩ := p
    by_cases hk : k = a
    · subst hk; simp [aupdate, alookup, h]
    · by_cases hk2 : k2 = a
      · subst hk2; simp [aupdate, alookup, hk]
      · simp [aupdate, alookup, hk, hk2, ih]

theorem alookup_ainsert_self {α β : Type} [DecidableEq α] (k : α) (v : β)
    (l : List (α × β)) : alookup (ainsert k v l) k = some v := by
  simp [ainsert, alookup_aupdate_self]

theorem alookup_ainsert_ne {α β : Type} [DecidableEq α] (k k2 : α) (v : β)
    (l : List (α × β)) (h : k2 ≠ k) : alookup (ainsert k v l) k2 = alookup l k2 :=
  alookup_aupdate_ne k k2 _ v l h

theorem alookup_eq_none {α β : Type} [DecidableEq α] (l : List (α × β)) (a : α)
    (h : a ∉ l.map Prod.fst) : alookup l a = none := by
  induction l with
  | nil => rfl
  | cons p rest ih =>
    obtain ⟨k, v⟩ := p
    simp only [List.map, List.mem_cons] at h
    push_neg at h
    simp [alookup, h.1, ih h.2]

theorem alookup_mem {α β : Type} [DecidableEq α] (l : List (α × β)) (a : α) (b : β)
    (h : alookup l a = some b) : a ∈ l.map Prod.fst ∧ b ∈ l.map Prod.snd := by
  induction l with
  | nil => exact nomatch h
  | cons p rest ih =>
    obtain ⟨k, v⟩ := p
    by_cases hk : a = k
    · subst hk
      simp [alookup] at h
      subst h
      simp
    · simp only [alookup, if_neg hk] at h
      have := ih h
      simp [this.1, this.2]

theorem aupdate_fresh {α β : Type} [DecidableEq α] (k : α) (f : β → β) (d : β)
    (l : List (α × β)) (h : alookup l k = none) :
    aupdate k f d l = l ++ [(k, f d)] := by
  induction l with
  | nil => rfl
  | cons p rest ih =>
    obtain ⟨a, b⟩ := p
    by_cases hk : k = a
    · subst hk; simp [alookup] at h
    · have hr : alookup rest k = none := by
        simpa [alookup, hk] using h
      simp [aupdate, hk, ih hr]

theorem mem_getD_aupdate_append {α β : Type} [DecidableEq α] (k k2 : α) (y : β)
    (l : List (α × List β)) (x : β)
    (h : x ∈ (alookup l k2).getD []) :
    x ∈ (alookup (aupdate k (fun v => v ++ [y]) [] l) k2).getD [] := by
  by_cases hk : k2 = k
  · subst hk
    rw [alookup_aupdate_self]
    cases h2 : alookup l k2 with
    | none => rw [h2] at h; exact nomatch h
    | some v => rw [h2] at h; simp [h2]; exact Or.inl h
  · rwa [alookup_aupdate_ne _ _ _ _ _ hk]

theorem mem_getD_aupdate_append_self {α β : Type} [DecidableEq α] (k : α) (y : β)
    (l : List (α × List β)) :
    y ∈ (alookup (aupdate k (fun v => v ++ [y]) [] l) k).getD [] := by
  rw [alookup_aupdate_self]
  simp

/-! ### The symbol rule and decorator-expression walks only touch
`free_variables` / `symbols_to_funcs`. -/

theorem coreEq_refl (s : St) : CoreEq s s :=
  ⟨rfl, rfl, rfl, rfl, rfl, rfl⟩

theorem coreEq_trans {s s2 s3 : St} (h1 : CoreEq s s2) (h2 : CoreEq s2 s3) :
    CoreEq s s3 := by
  obtain ⟨a1, b1, c1, d1, e1, f1⟩ := h1
  obtain ⟨a2, b2, c2, d2, e2, f2⟩ := h2
  exact ⟨a2.trans a1, b2.trans b1, c2.trans c1, d2.trans d1, e2.trans e1, f2.trans f1⟩

theorem visit_symbol_node_core (sym : Sym) (s : St) :
    CoreEq s (visit_symbol_node sym s) := by
  unfold visit_symbol_node add_free_variable
  repeat' split
  all_goals exact ⟨rfl, rfl, rfl, rfl, rfl, rfl⟩

theorem visit_name_ref_core (nd : NodeRef) (s : St) :
    CoreEq s (visit_name_ref nd s) := by
  cases nd with
  | varRef i => exact visit_symbol_node_core (.v i) s
  | funcRef i => exact visit_symbol_node_core (.f i) s
  | typeInfo i => exact coreEq_refl s
  | decoratorRef i => exact coreEq_refl s
  | noneRef => exact coreEq_refl s

mutual
theorem visitDecEx_core (d : DecEx) (s : St) : CoreEq s (visitDecEx d s) := by
  cases d with
  | nameD nm nd => exact visit_name_ref_core nd s
  | memberD base nm nd => exact visitDecEx_core base s
  | callD callee args =>
    exact coreEq_trans (visitDecEx_core callee s)
      (visitDecExList_core args (visitDecEx callee s))
  | otherD => exact coreEq_refl s

theorem visitDecExList_core (ds : DecExList) (s : St) :
    CoreEq s (visitDecExList ds s) := by
  cases ds with
  | nil => exact coreEq_refl s
  | cons d rest =>
    exact coreEq_trans (visitDecEx_core d s) (visitDecExList_core rest (visitDecEx d s))
end

/-! ### The decorator scan. -/

theorem processDecorators_fst (fid : Nat) (fargs : List (Option Nat)) :
    ∀ (ds : DecExList) (sdi : List (Nat × List (Nat × Nat))),
      (processDecorators fid fargs ds sdi).1 = stripRegisters fargs ds
  | .nil, _ => rfl
  | .cons d rest, sdi => by
    cases h : get_singledispatch_register_call_info d fargs with
    | some impl =>
      simp [processDecorators, stripRegisters, h, processDecorators_fst fid fargs rest]
    | none =>
      simp [processDecorators, stripRegisters, h, processDecorators_fst fid fargs rest]

theorem processDecorators_sdi_mono (fid : Nat) (fargs : List (Option Nat)) :
    ∀ (ds : DecExList) (sdi : List (Nat × List (Nat × Nat))) (k : Nat) (x : Nat × Nat),
      x ∈ (alookup sdi k).getD [] →
      x ∈ (alookup (processDecorators fid fargs ds sdi).2 k).getD []
  | .nil, _, _, _, h => h
  | .cons d rest, sdi, k, x, h => by
    cases hd : get_singledispatch_register_call_info d fargs with
    | some impl =>
      simp only [processDecorators, hd]
      exact processDecorators_sdi_mono fid fargs rest _ k x
        (mem_getD_aupdate_append impl.1 k (impl.2, fid) sdi x h)
    | none =>
      simp only [processDecorators, hd]
      exact processDecorators_sdi_mono fid fargs rest _ k x h

theorem processDecorators_records (fid : Nat) (fargs : List (Option Nat)) :
    ∀ (ds : DecExList) (sdi : List (Nat × List (Nat × Nat))) (d : DecEx),
      d ∈ ds.toList →
      ∀ sdf dt, get_singledispatch_register_call_info d fargs = some (sdf, dt) →
      (dt, fid) ∈ (alookup (processDecorators fid fargs ds sdi).2 sdf).getD []
  | .nil, _, d, hd => absurd hd (by simp [DecExList.toList])
  | .cons d0 rest, sdi, d, hd => by
    intro sdf dt hinfo
    simp only [DecExList.toList, List.mem_cons] at hd
    cases hd with
    | inl heq =>
      subst heq
      simp only [processDecorators, hinfo]
      exact processDecorators_sdi_mono fid fargs rest _ sdf (dt, fid)
        (mem_getD_aupdate_append_self sdf (dt, fid) sdi)
    | inr hmem =>
      cases hd0 : get_singledispatch_register_call_info d0 fargs with
      | some impl =>
        simp only [processDecorators, hd0]
        exact processDecorators_records fid fargs rest _ d hmem sdf dt hinfo
      | none =>
        simp only [processDecorators, hd0]
        exact processDecorators_records fid fargs rest _ d hmem sdf dt hinfo

/-! ### Frame facts about the traversal. -/

theorem enterFunc_proj (fid : Nat) (s : St) :
    (enterFunc fid s).funcs = fid :: s.funcs ∧
    (enterFunc fid s).funcs_to_decorators = s.funcs_to_decorators ∧
    (enterFunc fid s).singledispatch_impls = s.singledispatch_impls ∧
    (enterFunc fid s).prop_setters = s.prop_setters ∧
    (enterFunc fid s).free_variables = s.free_variables ∧
    (enterFunc fid s).symbols_to_funcs = s.symbols_to_funcs := by
  unfold enterFunc
  split <;> exact ⟨rfl, rfl, rfl, rfl, rfl, rfl⟩

/-- The pass restores the function stack, only touches
`funcs_to_decorators` at functions defined in the subtree, only appends to
`singledispatch_impls` entries, and rewrites the tree exactly as
`stripTree` describes. -/
theorem visitNode_master : ∀ (n : Node) (s : St),
    (visitNode n s).1.funcs = s.funcs ∧
    (∀ k, k ∉ nodeFuncIds n →
      alookup (visitNode n s).1.funcs_to_decorators k =
        alookup s.funcs_to_decorators k) ∧
    (∀ k x, x ∈ (alookup s.singledispatch_impls k).getD [] →
      x ∈ (alookup (visitNode n s).1.singledispatch_impls k).getD []) ∧
    (visitNode n s).2 = stripTree n := by
  intro n
  induction n with
  | skip => exact fun s => ⟨rfl, fun k _ => rfl, fun k x h => h, rfl⟩
  | ref nd =>
    intro s
    have hc := visit_name_ref_core nd s
    exact ⟨hc.1, fun k _ => by simp only [visitNode]; rw [hc.2.2.2.2.1],
      fun k x h => by simp only [visitNode]; rw [hc.2.2.2.2.2]; exact h, rfl⟩
  | seq a b iha ihb =>
    intro s
    obtain ⟨f1, t1, m1, e1⟩ := iha s
    obtain ⟨f2, t2, m2, e2⟩ := ihb (visitNode a s).1
    simp only [visitNode]
    refine ⟨by rw [f2, f1], ?_, ?_, by rw [e1, e2]; rfl⟩
    · intro k hk
      simp only [nodeFuncIds, List.mem_append] at hk
      push_neg at hk
      rw [t2 k hk.2, t1 k hk.1]
    · intro k x h
      exact m2 k x (m1 k x h)
  | funcDef fid fargs body ih =>
    intro s
    obtain ⟨f1, t1, m1, e1⟩ := ih (enterFunc fid s)
    have hef := enterFunc_proj fid s
    simp only [visitNode]
    refine ⟨?_, ?_, ?_, by rw [e1]; rfl⟩
    · show (visitNode body (enterFunc fid s)).1.funcs.tail = s.funcs
      rw [f1, hef.1]; rfl
    · intro k hk
      simp only [nodeFuncIds, List.mem_cons] at hk
      push_neg at hk
      show alookup (visitNode body (enterFunc fid s)).1.funcs_to_decorators k = _
      rw [t1 k hk.2, hef.2.1]
    · intro k x h
      show x ∈ (alookup (visitNode body (enterFunc fid s)).1.singledispatch_impls k).getD []
      refine m1 k x ?_
      rw [hef.2.2.1]
      exact h
  | lam fid fargs body ih =>
    intro s
    obtain ⟨f1, t1, m1, e1⟩ := ih (enterFunc fid s)
    have hef := enterFunc_proj fid s
    simp only [visitNode]
    refine ⟨?_, ?_, ?_, by rw [e1]; rfl⟩
    · show (visitNode body (enterFunc fid s)).1.funcs.tail = s.funcs
      rw [f1, hef.1]; rfl
    · intro k hk
      simp only [nodeFuncIds, List.mem_cons] at hk
      push_neg at hk
      show alookup (visitNode body (enterFunc fid s)).1.funcs_to_decorators k = _
      rw [t1 k hk.2, hef.2.1]
    · intro k x h
      show x ∈ (alookup (visitNode body (enterFunc fid s)).1.singledispatch_impls k).getD []
      refine m1 k x ?_
      rw [hef.2.2.1]
      exact h
  | decorated fid fargs body decs ih =>
    intro s
    cases decs with
    | nil =>
      obtain ⟨f1, t1, m1, e1⟩ := ih (enterFunc fid s)
      have hef := enterFunc_proj fid s
      simp only [visitNode]
      have hdl := visitDecExList_core .nil (exitFunc (visitNode body (enterFunc fid s)).1)
      refine ⟨?_, ?_, ?_, by rw [e1]; rfl⟩
      · rw [hdl.1]
        show (visitNode body (enterFunc fid s)).1.funcs.tail = s.funcs
        rw [f1, hef.1]; rfl
      · intro k hk
        simp only [nodeFuncIds, List.mem_cons] at hk
        push_neg at hk
        rw [hdl.2.2.2.2.1]
        show alookup (visitNode body (enterFunc fid s)).1.funcs_to_decorators k = _
        rw [t1 k hk.2, hef.2.1]
      · intro k x h
        rw [hdl.2.2.2.2.2]
        show x ∈ (alookup (visitNode body (enterFunc fid s)).1.singledispatch_impls k).getD []
        refine m1 k x ?_
        rw [hef.2.2.1]
        exact h
    | cons d0 rest =>
      by_cases hs : setterHead (.cons d0 rest)
      · simp only [visitNode, if_pos hs]
        set s0 : St := { s with prop_setters := addIfAbsent fid s.prop_setters } with hs0
        obtain ⟨f1, t1, m1, e1⟩ := ih (enterFunc fid s0)
        have hef := enterFunc_proj fid s0
        have hdl := visitDecExList_core (.cons d0 rest)
          (exitFunc (visitNode body (enterFunc fid s0)).1)
        refine ⟨?_, ?_, ?_, ?_⟩
        · rw [hdl.1]
          show (visitNode body (enterFunc fid s0)).1.funcs.tail = s.funcs
          rw [f1, hef.1]; rfl
        · intro k hk
          simp only [nodeFuncIds, List.mem_cons] at hk
          push_neg at hk
          rw [hdl.2.2.2.2.1]
          show alookup (visitNode body (enterFunc fid s0)).1.funcs_to_decorators k = _
          rw [t1 k hk.2, hef.2.1]
        · intro k x h
          rw [hdl.2.2.2.2.2]
          show x ∈ (alookup (visitNode body (enterFunc fid s0)).1.singledispatch_impls k).getD []
          refine m1 k x ?_
          rw [hef.2.2.1]
          exact h
        · rw [e1]
          simp only [stripTree, if_pos hs]
      · simp only [visitNode, if_neg hs]
        have hfst := processDecorators_fst fid fargs (.cons d0 rest) s.singledispatch_impls
        cases hpr : (processDecorators fid fargs (.cons d0 rest) s.singledispatch_impls).1 with
        | nil =>
          refine ⟨rfl, fun k _ => rfl, ?_, ?_⟩
          · intro k x h
            exact processDecorators_sdi_mono fid fargs _ _ k x h
          · show Node.decorated fid fargs body .nil = _
            simp only [stripTree, if_neg hs]
            rw [← hfst, hpr]
        | cons r0 rrest =>
          obtain ⟨f1, t1, m1, e1⟩ := ih (enterFunc fid
            { s with
              funcs_to_decorators := ainsert fid (.cons r0 rrest) s.funcs_to_decorators,
              singledispatch_impls :=
                (processDecorators fid fargs (.cons d0 rest) s.singledispatch_impls).2 })
          have hef := enterFunc_proj fid
            { s with
              funcs_to_decorators := ainsert fid (.cons r0 rrest) s.funcs_to_decorators,
              singledispatch_impls :=
                (processDecorators fid fargs (.cons d0 rest) s.singledispatch_impls).2 }
          have hdl := visitDecExList_core (.cons r0 rrest)
            (exitFunc (visitNode body (enterFunc fid
              { s with
                funcs_to_decorators := ainsert fid (.cons r0 rrest) s.funcs_to_decorators,
                singledispatch_impls :=
                  (processDecorators fid fargs (.cons d0 rest) s.singledispatch_impls).2 })).1)
          refine ⟨?_, ?_, ?_, ?_⟩
          · rw [hdl.1]
            show (visitNode body (enterFunc fid
              { s with
                funcs_to_decorators := ainsert fid (.cons r0 rrest) s.funcs_to_decorators,
                singledispatch_impls :=
                  (processDecorators fid fargs (.cons d0 rest)
                    s.singledispatch_impls).2 })).1.funcs.tail = s.funcs
            rw [f1, hef.1]; rfl
          · intro k hk
            simp only [nodeFuncIds, List.mem_cons] at hk
            push_neg at hk
            rw [hdl.2.2.2.2.1]
            show alookup (visitNode body (enterFunc fid
              { s with
                funcs_to_decorators := ainsert fid (.cons r0 rrest) s.funcs_to_decorators,
                singledispatch_impls :=
                  (processDecorators fid fargs (.cons d0 rest)
                    s.singledispatch_impls).2 })).1.funcs_to_decorators k = _
            rw [t1 k hk.2, hef.2.1]
            show alookup (ainsert fid (.cons r0 rrest) s.funcs_to_decorators) k = _
            rw [alookup_ainsert_ne _ _ _ _ hk.1]
          · intro k x h
            rw [hdl.2.2.2.2.2]
            show x ∈ (alookup (visitNode body (enterFunc fid
              { s with
                funcs_to_decorators := ainsert fid (.cons r0 rrest) s.funcs_to_decorators,
                singledispatch_impls :=
                  (processDecorators fid fargs (.cons d0 rest)
                    s.singledispatch_impls).2 })).1.singledispatch_impls k).getD []
            refine m1 k x ?_
            rw [hef.2.2.1]
            show x ∈ (alookup (processDecorators fid fargs (.cons d0 rest)
              s.singledispatch_impls).2 k).getD []
            exact processDecorators_sdi_mono fid fargs _ _ k x h
          · simp only [e1]
            simp only [stripTree, if_neg hs]
            rw [← hfst, hpr]

/-! ### Claims C1, C7, C8, C10: the pre-analyzer. -/

/-- C1: for `def outer(): x = 1; def inner(): return x` (outer = function 0,
inner = function 1, x = variable 2), after the pass `free_variables[outer]`
contains the symbol for `x`, `nested_of[inner] = outer`, and `inner` appears
in `children_of[outer]`. -/
theorem c1_closure_capture :
    Sym.v 2 ∈ ((alookup (analyze (.funcDef 0 []
        (.seq (.ref (.varRef 2)) (.funcDef 1 [] (.ref (.varRef 2)))))).1.free_variables
      0).getD []) ∧
    alookup (analyze (.funcDef 0 []
        (.seq (.ref (.varRef 2)) (.funcDef 1 [] (.ref (.varRef 2)))))).1.nested_funcs
      1 = some 0 ∧
    (1 : Nat) ∈ ((alookup (analyze (.funcDef 0 []
        (.seq (.ref (.varRef 2)) (.funcDef 1 [] (.ref (.varRef 2)))))).1.encapsulating_funcs
      0).getD []) := by
  refine ⟨by decide, by decide, by decide⟩

/-- C8 counterexample: the pass mutates its input tree: a function whose
only decorator is a recognized `@f.register(int)` call comes out with an
empty decorator list. -/
theorem c8_counterexample :
    (analyze (.decorated 1 [] .skip
        (.cons (.callD (.memberD (.nameD "f" (.decoratorRef 7)) "register" .noneRef)
          (.cons (.nameD "int" (.typeInfo 3)) .nil)) .nil))).2 =
      .decorated 1 [] .skip .nil ∧
    (analyze (.decorated 1 [] .skip
        (.cons (.callD (.memberD (.nameD "f" (.decoratorRef 7)) "register" .noneRef)
          (.cons (.nameD "int" (.typeInfo 3)) .nil)) .nil))).2 ≠
      .decorated 1 [] .skip
        (.cons (.callD (.memberD (.nameD "f" (.decoratorRef 7)) "register" .noneRef)
          (.cons (.nameD "int" (.typeInfo 3)) .nil)) .nil) := by
  refine ⟨rfl, ?_⟩
  intro h
  have h2 : Node.decorated 1 [] .skip .nil =
      .decorated 1 [] .skip
        (.cons (.callD (.memberD (.nameD "f" (.decoratorRef 7)) "register" .noneRef)
          (.cons (.nameD "int" (.typeInfo 3)) .nil)) .nil) := h
  injection h2 with h3 h4 h5 h6
  exact nomatch h6

/-- C8 (amended): the pass leaves the tree unchanged except that recognized
single-dispatch registration decorators are deleted from decorator lists
(exactly the `stripTree` rewriting); in particular any tree without
recognized registration decorators is returned unchanged. -/
theorem c8_tree_mutation :
    (∀ (n : Node) (s : St), (visitNode n s).2 = stripTree n) ∧
    (∀ (n : Node) (s : St), stripTree n = n → (visitNode n s).2 = n) := by
  refine ⟨fun n s => (visitNode_master n s).2.2.2, fun n s h => ?_⟩
  rw [(visitNode_master n s).2.2.2, h]

/-- C8 witness: a unit with an undecorated function is returned unchanged. -/
theorem c8_tree_mutation_witness :
    (visitNode (.funcDef 0 [] (.ref (.varRef 2))) St.initial).2 =
      .funcDef 0 [] (.ref (.varRef 2)) :=
  c8_tree_mutation.2 (.funcDef 0 [] (.ref (.varRef 2))) St.initial rfl

/-- A decorator list in which every decorator is a recognized registration
cannot be setter-headed: a recognized decorator is either a `register` call
or a bare member access named `register`. -/
theorem setterHead_false_of_strip_nil (fargs : List (Option Nat)) (d0 : DecEx)
    (rest : DecExList) (h : stripRegisters fargs (.cons d0 rest) = .nil) :
    setterHead (.cons d0 rest) = false := by
  cases d0 with
  | nameD nm nd => rfl
  | callD callee args => rfl
  | otherD => rfl
  | memberD base nm nd =>
    cases hi : get_singledispatch_register_call_info (.memberD base nm nd) fargs with
    | none =>
      rw [stripRegisters, hi] at h
      exact nomatch h
    | some impl =>
      have hnm : nm = "register" := by
        simp only [get_singledispatch_register_call_info] at hi
        cases fargs with
        | nil => exact nomatch hi
        | cons argTy restf =>
          cases argTy with
          | none => exact nomatch hi
          | some ti =>
            simp only [registered_impl_from_possible_register_call] at hi
            by_cases hr : nm = "register"
            · exact hr
            · rw [if_neg hr] at hi
              exact nomatch hi
      subst hnm
      rfl

/-- C10: when every decorator of a decorated function is recognized as a
registration decorator (the stripped list is empty), `visit_decorator`
returns before the base traversal: the final state differs from the input
state at most in `singledispatch_impls` — the function stack, nesting and
children maps, symbol ownership, free variables, ordinary decorator map and
property-setter set are untouched, and the body is never processed. -/
theorem c10_all_recognized_skip :
    ∀ (s : St) (fid : Nat) (fargs : List (Option Nat)) (body : Node) (d0 : DecEx)
      (rest : DecExList),
      stripRegisters fargs (.cons d0 rest) = .nil →
      (visitNode (.decorated fid fargs body (.cons d0 rest)) s).1.funcs = s.funcs ∧
      (visitNode (.decorated fid fargs body (.cons d0 rest)) s).1.nested_funcs =
        s.nested_funcs ∧
      (visitNode (.decorated fid fargs body (.cons d0 rest)) s).1.encapsulating_funcs =
        s.encapsulating_funcs ∧
      (visitNode (.decorated fid fargs body (.cons d0 rest)) s).1.symbols_to_funcs =
        s.symbols_to_funcs ∧
      (visitNode (.decorated fid fargs body (.cons d0 rest)) s).1.free_variables =
        s.free_variables ∧
      (visitNode (.decorated fid fargs body (.cons d0 rest)) s).1.funcs_to_decorators =
        s.funcs_to_decorators ∧
      (visitNode (.decorated fid fargs body (.cons d0 rest)) s).1.prop_setters =
        s.prop_setters := by
  intro s fid fargs body d0 rest hstrip
  have hset : setterHead (.cons d0 rest) = false :=
    setterHead_false_of_strip_nil fargs d0 rest hstrip
  have h1 : (processDecorators fid fargs (.cons d0 rest) s.singledispatch_impls).1 =
      .nil := by
    rw [processDecorators_fst]; exact hstrip
  have hset2 : ¬(setterHead (.cons d0 rest) = true) := by
    rw [hset]; exact Bool.false_ne_true
  simp [visitNode, if_neg hset2, h1]

/-- C10 witness: a nested, all-recognized-decorators function (the stack is
non-empty) leaves everything but `singledispatch_impls` unchanged. -/
theorem c10_all_recognized_skip_witness :
    (visitNode (.decorated 1 [] (.ref (.varRef 9))
        (.cons (.callD (.memberD (.nameD "f" (.decoratorRef 7)) "register" .noneRef)
          (.cons (.nameD "int" (.typeInfo 3)) .nil)) .nil))
      { St.initial with funcs := [5] }).1.nested_funcs =
      ({ St.initial with funcs := [5] } : St).nested_funcs :=
  (c10_all_recognized_skip { St.initial with funcs := [5] } 1 [] (.ref (.varRef 9))
    (.callD (.memberD (.nameD "f" (.decoratorRef 7)) "register" .noneRef)
      (.cons (.nameD "int" (.typeInfo 3)) .nil)) .nil rfl).2.1

/-- C7: for a decorated function whose decorator list is non-empty and not
headed by a setter member-access, the surviving decorator list is exactly
the in-order filter dropping recognized registration decorators
(`stripRegisters`): when it is non-empty it is stored under the function in
`funcs_to_decorators`; when it is empty no entry is recorded (the map is
unchanged); and every recognized `(dispatch type, function)` registration is
recorded under its dispatcher in `singledispatch_impls`. -/
theorem c7_decorator_stripping :
    ∀ (s : St) (fid : Nat) (fargs : List (Option Nat)) (body : Node) (d0 : DecEx)
      (rest : DecExList),
      setterHead (.cons d0 rest) = false →
      fid ∉ nodeFuncIds body →
      (∀ r0 rrest, stripRegisters fargs (.cons d0 rest) = .cons r0 rrest →
        alookup (visitNode (.decorated fid fargs body (.cons d0 rest)) s).1.funcs_to_decorators
          fid = some (.cons r0 rrest)) ∧
      (stripRegisters fargs (.cons d0 rest) = .nil →
        (visitNode (.decorated fid fargs body (.cons d0 rest)) s).1.funcs_to_decorators =
          s.funcs_to_decorators) ∧
      (∀ d, d ∈ (DecExList.cons d0 rest).toList →
        ∀ sdf dt, get_singledispatch_register_call_info d fargs = some (sdf, dt) →
        (dt, fid) ∈
          (alookup (visitNode (.decorated fid fargs body (.cons d0 rest)) s).1.singledispatch_impls
            sdf).getD []) := by
  intro s fid fargs body d0 rest hset hfid
  have hfst := processDecorators_fst fid fargs (.cons d0 rest) s.singledispatch_impls
  have hset2 : ¬(setterHead (.cons d0 rest) = true) := by
    rw [hset]; exact Bool.false_ne_true
  refine ⟨?_, ?_, ?_⟩
  · intro r0 rrest hr
    have h1 : (processDecorators fid fargs (.cons d0 rest) s.singledispatch_impls).1 =
        .cons r0 rrest := by rw [hfst]; exact hr
    simp only [visitNode, if_neg hset2, h1]
    have hdl := visitDecExList_core (.cons r0 rrest)
      (exitFunc (visitNode body (enterFunc fid
        { s with
          funcs_to_decorators := ainsert fid (.cons r0 rrest) s.funcs_to_decorators,
          singledispatch_impls :=
            (processDecorators fid fargs (.cons d0 rest) s.singledispatch_impls).2 })).1)
    rw [hdl.2.2.2.2.1]
    have hm := (visitNode_master body (enterFunc fid
      { s with
        funcs_to_decorators := ainsert fid (.cons r0 rrest) s.funcs_to_decorators,
        singledispatch_impls :=
          (processDecorators fid fargs (.cons d0 rest) s.singledispatch_impls).2 })).2.1
    have hef := enterFunc_proj fid
      { s with
        funcs_to_decorators := ainsert fid (.cons r0 rrest) s.funcs_to_decorators,
        singledispatch_impls :=
          (processDecorators fid fargs (.cons d0 rest) s.singledispatch_impls).2 }
    show alookup (visitNode body (enterFunc fid
      { s with
        funcs_to_decorators := ainsert fid (.cons r0 rrest) s.funcs_to_decorators,
        singledispatch_impls :=
          (processDecorators fid fargs (.cons d0 rest)
            s.singledispatch_impls).2 })).1.funcs_to_decorators fid = _
    rw [hm fid hfid, hef.2.1]
    show alookup (ainsert fid (.cons r0 rrest) s.funcs_to_decorators) fid = _
    rw [alookup_ainsert_self]
  · intro hr
    have h1 : (processDecorators fid fargs (.cons d0 rest) s.singledispatch_impls).1 =
        .nil := by rw [hfst]; exact hr
    simp only [visitNode, if_neg hset2, h1]
  · intro d hd sdf dt hinfo
    have hrec := processDecorators_records fid fargs (.cons d0 rest)
      s.singledispatch_impls d hd sdf dt hinfo
    cases h1 : (processDecorators fid fargs (.cons d0 rest) s.singledispatch_impls).1 with
    | nil =>
      simp only [visitNode, if_neg hset2, h1]
      exact hrec
    | cons r0 rrest =>
      simp only [visitNode, if_neg hset2, h1]
      have hdl := visitDecExList_core (.cons r0 rrest)
        (exitFunc (visitNode body (enterFunc fid
          { s with
            funcs_to_decorators := ainsert fid (.cons r0 rrest) s.funcs_to_decorators,
            singledispatch_impls :=
              (processDecorators fid fargs (.cons d0 rest) s.singledispatch_impls).2 })).1)
      rw [hdl.2.2.2.2.2]
      have hm := (visitNode_master body (enterFunc fid
        { s with
          funcs_to_decorators := ainsert fid (.cons r0 rrest) s.funcs_to_decorators,
          singledispatch_impls :=
            (processDecorators fid fargs (.cons d0 rest) s.singledispatch_impls).2 })).2.2.1
      have hef := enterFunc_proj fid
        { s with
          funcs_to_decorators := ainsert fid (.cons r0 rrest) s.funcs_to_decorators,
          singledispatch_impls :=
            (processDecorators fid fargs (.cons d0 rest) s.singledispatch_impls).2 }
      show (dt, fid) ∈ (alookup (visitNode body (enterFunc fid
        { s with
          funcs_to_decorators := ainsert fid (.cons r0 rrest) s.funcs_to_decorators,
          singledispatch_impls :=
            (processDecorators fid fargs (.cons d0 rest)
              s.singledispatch_impls).2 })).1.singledispatch_impls sdf).getD []
      refine hm sdf (dt, fid) ?_
      rw [hef.2.2.1]
      exact hrec

/-- C7 witness: `[d1, register_call]` with `d1` unrecognized keeps
`decorators_of = [d1]` and records the registration under the dispatcher. -/
theorem c7_decorator_stripping_witness :
    alookup (visitNode (.decorated 1 []
        .skip
        (.cons .otherD
          (.cons (.callD (.memberD (.nameD "f" (.decoratorRef 7)) "register" .noneRef)
            (.cons (.nameD "int" (.typeInfo 3)) .nil)) .nil)))
      St.initial).1.funcs_to_decorators 1 = some (.cons .otherD .nil) :=
  (c7_decorator_stripping St.initial 1 [] .skip .otherD
    (.cons (.callD (.memberD (.nameD "f" (.decoratorRef 7)) "register" .noneRef)
      (.cons (.nameD "int" (.typeInfo 3)) .nil)) .nil) rfl (by simp [nodeFuncIds])).1
    .otherD .nil rfl

/-! ### Acyclicity of the parent map and termination of `is_parent`. -/

theorem alookup_append {α β : Type} [DecidableEq α] (l1 l2 : List (α × β)) (a : α) :
    alookup (l1 ++ l2) a =
      match alookup l1 a with
      | some v => some v
      | none => alookup l2 a := by
  induction l1 with
  | nil => simp [alookup]
  | cons p rest ih =>
    obtain ⟨k, v⟩ := p
    by_cases hk : a = k
    · simp [alookup, hk]
    · simp [alookup, hk, ih]

theorem nfInv_nil : NfInv [] := by
  refine ⟨fun _ => 0, ?_, ?_⟩
  · intro a b h
    exact nomatch h
  · intro x
    exact Nat.le_refl 0

theorem nfInv_snoc (nf : List (Nat × Nat)) (f g : Nat) (hInv : NfInv nf)
    (hf1 : alookup nf f = none)
    (hf2 : ∀ a b, alookup nf a = some b → b ≠ f)
    (hfg : g ≠ f) : NfInv (nf ++ [(f, g)]) := by
  obtain ⟨rank, hdec, hbd⟩ := hInv
  refine ⟨fun x => if x = f then rank g + 1 else rank x, ?_, ?_⟩
  · intro a b h
    simp only []
    rw [alookup_append] at h
    cases h1 : alookup nf a with
    | some b0 =>
      rw [h1] at h
      have hb : b0 = b := Option.some.inj h
      subst hb
      have haf : a ≠ f := by
        intro hh
        rw [hh, hf1] at h1
        exact nomatch h1
      have hbf : b0 ≠ f := hf2 a b0 h1
      rw [if_neg haf, if_neg hbf]
      exact hdec a b0 h1
    | none =>
      rw [h1] at h
      simp only [alookup] at h
      by_cases haf : a = f
      · rw [if_pos haf] at h
        have hb : g = b := Option.some.inj h
        subst hb
        rw [if_pos haf, if_neg hfg]
        omega
      · rw [if_neg haf] at h
        exact nomatch h
  · intro x
    simp only [List.length_append, List.length_cons, List.length_nil]
    by_cases hx : x = f
    · simp only [if_pos hx]
      have := hbd g
      omega
    · simp only [if_neg hx]
      have := hbd x
      omega

theorem isParentAux_some_of_rank (nf : List (Nat × Nat)) (fitem : Nat)
    (rank : Nat → Nat) (hdec : ∀ a b, alookup nf a = some b → rank b < rank a) :
    ∀ (fuel child : Nat), rank child < fuel →
      (isParentAux nf fitem fuel child).isSome = true := by
  intro fuel
  induction fuel with
  | zero => intro child h; exact absurd h (by omega)
  | succ k ih =>
    intro child hch
    cases h1 : alookup nf child with
    | some parent =>
      by_cases hp : parent = fitem
      · simp [isParentAux, h1, hp]
      · have := hdec child parent h1
        simp only [isParentAux, h1, if_neg hp]
        exact ih parent (by omega)
    | none => simp [isParentAux, h1]

/-- On an acyclic parent map, the fuel used by `is_parent` never runs out:
the walk reaches `fitem` or a parentless function within `length + 1`
steps. -/
theorem isParentAux_total (nf : List (Nat × Nat)) (hInv : NfInv nf)
    (fitem child : Nat) :
    (isParentAux nf fitem (nf.length + 1) child).isSome = true := by
  obtain ⟨rank, hdec, hbd⟩ := hInv
  exact isParentAux_some_of_rank nf fitem rank hdec (nf.length + 1) child
    (by have := hbd child; omega)

theorem mentioned_coreEq {s s2 : St} (h : CoreEq s s2) :
    mentioned s2 = mentioned s := by
  unfold mentioned
  rw [h.1, h.2.1]

theorem mentioned_exitFunc (s : St) (x : Nat) (h : x ∈ mentioned (exitFunc s)) :
    x ∈ mentioned s := by
  simp only [mentioned, exitFunc, List.mem_append] at h ⊢
  rcases h with (h | h) | h
  · exact Or.inl (Or.inl (List.mem_of_mem_tail h))
  · exact Or.inl (Or.inr h)
  · exact Or.inr h

theorem enterFunc_nfInv (fid : Nat) (s : St) (hInv : NfInv s.nested_funcs)
    (hfid : fid ∉ mentioned s) :
    NfInv (enterFunc fid s).nested_funcs ∧
    (∀ x, x ∈ mentioned (enterFunc fid s) → x ∈ mentioned s ∨ x = fid) := by
  have hks : fid ∉ s.nested_funcs.map Prod.fst := by
    intro hk
    exact hfid (by simp [mentioned, hk])
  have hps : fid ∉ s.nested_funcs.map Prod.snd := by
    intro hk
    exact hfid (by simp [mentioned, hk])
  have hnone : alookup s.nested_funcs fid = none := alookup_eq_none _ _ hks
  unfold enterFunc
  cases hfu : s.funcs with
  | nil =>
    refine ⟨hInv, ?_⟩
    intro x hx
    simp only [mentioned, hfu, List.mem_append, List.mem_cons] at hx ⊢
    tauto
  | cons top restf =>
    have htop : top ∈ mentioned s := by
      simp [mentioned, hfu]
    have htf : top ≠ fid := by
      intro hh
      exact hfid (hh ▸ htop)
    have hfresh : ainsert fid top s.nested_funcs = s.nested_funcs ++ [(fid, top)] :=
      aupdate_fresh fid _ top s.nested_funcs hnone
    constructor
    · show NfInv (ainsert fid top s.nested_funcs)
      rw [hfresh]
      refine nfInv_snoc s.nested_funcs fid top hInv hnone ?_ htf
      intro a b hab
      intro hh
      exact hps (hh ▸ (alookup_mem _ _ _ hab).2)
    · intro x hx
      show x ∈ mentioned s ∨ x = fid
      simp only [mentioned, hfu, hfresh, List.map_append, List.map_cons, List.map_nil,
        List.mem_append, List.mem_cons, List.mem_singleton, List.not_mem_nil, or_false]
        at hx ⊢
      tauto

/-- The traversal preserves acyclicity of `nested_funcs`: visiting any
subtree whose function ids are distinct and fresh for the current state
keeps the parent map acyclic, and mentions only old ids and the subtree's
ids. -/
theorem visitNode_nfInv : ∀ (n : Node) (s : St),
    NfInv s.nested_funcs → (nodeFuncIds n).Nodup →
    (∀ i ∈ nodeFuncIds n, i ∉ mentioned s) →
    NfInv (visitNode n s).1.nested_funcs ∧
    (∀ x, x ∈ mentioned (visitNode n s).1 → x ∈ mentioned s ∨ x ∈ nodeFuncIds n) := by
  intro n
  induction n with
  | skip => exact fun s hI _ _ => ⟨hI, fun x hx => Or.inl hx⟩
  | ref nd =>
    intro s hI _ _
    have hc := visit_name_ref_core nd s
    constructor
    · show NfInv (visit_name_ref nd s).nested_funcs
      rw [hc.2.1]
      exact hI
    · intro x hx
      show x ∈ mentioned s ∨ x ∈ nodeFuncIds (.ref nd)
      rw [show mentioned (visitNode (.ref nd) s).1 = mentioned s from mentioned_coreEq hc]
        at hx
      exact Or.inl hx
  | seq a b iha ihb =>
    intro s hI hnd hdisj
    rw [show nodeFuncIds (.seq a b) = nodeFuncIds a ++ nodeFuncIds b from rfl,
      List.nodup_append] at hnd
    obtain ⟨nd1, nd2, hdj⟩ := hnd
    have ha := iha s hI nd1 (fun i hi => hdisj i (by simp [nodeFuncIds, hi]))
    have hb := ihb (visitNode a s).1 ha.1 nd2 ?_
    · constructor
      · exact hb.1
      · intro x hx
        rcases hb.2 x hx with hx2 | hx2
        · rcases ha.2 x hx2 with hx3 | hx3
          · exact Or.inl hx3
          · exact Or.inr (by simp [nodeFuncIds, hx3])
        · exact Or.inr (by simp [nodeFuncIds, hx2])
    · intro i hi hmem
      rcases ha.2 i hmem with hx | hx
      · exact hdisj i (by simp [nodeFuncIds, hi]) hx
      · exact hdj hx hi
  | funcDef fid fargs body ih =>
    intro s hI hnd hdisj
    rw [show nodeFuncIds (.funcDef fid fargs body) = fid :: nodeFuncIds body from rfl,
      List.nodup_cons] at hnd
    obtain ⟨hfb, ndb⟩ := hnd
    have hfid : fid ∉ mentioned s := hdisj fid (by simp [nodeFuncIds])
    have hent := enterFunc_nfInv fid s hI hfid
    have hbody := ih (enterFunc fid s) hent.1 ndb ?_
    · constructor
      · show NfInv (visitNode body (enterFunc fid s)).1.nested_funcs
        exact hbody.1
      · intro x hx
        have hx2 : x ∈ mentioned (visitNode body (enterFunc fid s)).1 :=
          mentioned_exitFunc _ x hx
        rcases hbody.2 x hx2 with hx3 | hx3
        · rcases hent.2 x hx3 with hx4 | hx4
          · exact Or.inl hx4
          · exact Or.inr (by simp [nodeFuncIds, hx4])
        · exact Or.inr (by simp [nodeFuncIds, hx3])
    · intro i hi hmem
      rcases hent.2 i hmem with hx | hx
      · exact hdisj i (by simp [nodeFuncIds, hi]) hx
      · exact hfb (hx ▸ hi)
  | lam fid fargs body ih =>
    intro s hI hnd hdisj
    rw [show nodeFuncIds (.lam fid fargs body) = fid :: nodeFuncIds body from rfl,
      List.nodup_cons] at hnd
    obtain ⟨hfb, ndb⟩ := hnd
    have hfid : fid ∉ mentioned s := hdisj fid (by simp [nodeFuncIds])
    have hent := enterFunc_nfInv fid s hI hfid
    have hbody := ih (enterFunc fid s) hent.1 ndb ?_
    · constructor
      · show NfInv (visitNode body (enterFunc fid s)).1.nested_funcs
        exact hbody.1
      · intro x hx
        have hx2 : x ∈ mentioned (visitNode body (enterFunc fid s)).1 :=
          mentioned_exitFunc _ x hx
        rcases hbody.2 x hx2 with hx3 | hx3
        · rcases hent.2 x hx3 with hx4 | hx4
          · exact Or.inl hx4
          · exact Or.inr (by simp [nodeFuncIds, hx4])
        · exact Or.inr (by simp [nodeFuncIds, hx3])
    · intro i hi hmem
      rcases hent.2 i hmem with hx | hx
      · exact hdisj i (by simp [nodeFuncIds, hi]) hx
      · exact hfb (hx ▸ hi)
  | decorated fid fargs body decs ih =>
    intro s hI hnd hdisj
    rw [show nodeFuncIds (.decorated fid fargs body decs) = fid :: nodeFuncIds body
        from rfl,
      List.nodup_cons] at hnd
    obtain ⟨hfb, ndb⟩ := hnd
    have hfid : fid ∉ mentioned s := hdisj fid (by simp [nodeFuncIds])
    cases decs with
    | nil =>
      have hent := enterFunc_nfInv fid s hI hfid
      have hbody := ih (enterFunc fid s) hent.1 ndb ?_
      · have hdl := visitDecExList_core DecExList.nil
          (exitFunc (visitNode body (enterFunc fid s)).1)
        constructor
        · show NfInv (visitDecExList DecExList.nil
            (exitFunc (visitNode body (enterFunc fid s)).1)).nested_funcs
          rw [hdl.2.1]
          exact hbody.1
        · intro x hx
          rw [show mentioned (visitNode (.decorated fid fargs body .nil) s).1 =
              mentioned (exitFunc (visitNode body (enterFunc fid s)).1)
            from mentioned_coreEq hdl] at hx
          have hx2 : x ∈ mentioned (visitNode body (enterFunc fid s)).1 :=
            mentioned_exitFunc _ x hx
          rcases hbody.2 x hx2 with hx3 | hx3
          · rcases hent.2 x hx3 with hx4 | hx4
            · exact Or.inl hx4
            · exact Or.inr (by simp [nodeFuncIds, hx4])
          · exact Or.inr (by simp [nodeFuncIds, hx3])
      · intro i hi hmem
        rcases hent.2 i hmem with hx | hx
        · exact hdisj i (by simp [nodeFuncIds, hi]) hx
        · exact hfb (hx ▸ hi)
    | cons d0 rest =>
      by_cases hs : setterHead (.cons d0 rest) = true
      · simp only [visitNode, if_pos hs]
        have hfid0 : fid ∉ mentioned { s with prop_setters := addIfAbsent fid s.prop_setters } :=
          hfid
        have hent := enterFunc_nfInv fid
          { s with prop_setters := addIfAbsent fid s.prop_setters } hI hfid0
        have hbody := ih (enterFunc fid
          { s with prop_setters := addIfAbsent fid s.prop_setters }) hent.1 ndb ?_
        · have hdl := visitDecExList_core (DecExList.cons d0 rest)
            (exitFunc (visitNode body (enterFunc fid
              { s with prop_setters := addIfAbsent fid s.prop_setters })).1)
          constructor
          · rw [hdl.2.1]
            exact hbody.1
          · intro x hx
            rw [mentioned_coreEq hdl] at hx
            have hx2 := mentioned_exitFunc _ x hx
            rcases hbody.2 x hx2 with hx3 | hx3
            · rcases hent.2 x hx3 with hx4 | hx4
              · exact Or.inl hx4
              · exact Or.inr (by simp [nodeFuncIds, hx4])
            · exact Or.inr (by simp [nodeFuncIds, hx3])
        · intro i hi hmem
          rcases hent.2 i hmem with hx | hx
          · exact hdisj i (by simp [nodeFuncIds, hi]) hx
          · exact hfb (hx ▸ hi)
      · simp only [visitNode, if_neg hs]
        cases hpr : (processDecorators fid fargs (.cons d0 rest) s.singledispatch_impls).1 with
        | nil => exact ⟨hI, fun x hx => Or.inl hx⟩
        | cons r0 rrest =>
          have hfid1 : fid ∉ mentioned
            { s with
              funcs_to_decorators := ainsert fid (.cons r0 rrest) s.funcs_to_decorators,
              singledispatch_impls :=
                (processDecorators fid fargs (.cons d0 rest) s.singledispatch_impls).2 } :=
            hfid
          have hent := enterFunc_nfInv fid
            { s with
              funcs_to_decorators := ainsert fid (.cons r0 rrest) s.funcs_to_decorators,
              singledispatch_impls :=
                (processDecorators fid fargs (.cons d0 rest) s.singledispatch_impls).2 }
            hI hfid1
          have hbody := ih (enterFunc fid
            { s with
              funcs_to_decorators := ainsert fid (.cons r0 rrest) s.funcs_to_decorators,
              singledispatch_impls :=
                (processDecorators fid fargs (.cons d0 rest) s.singledispatch_impls).2 })
            hent.1 ndb ?_
          · have hdl := visitDecExList_core (DecExList.cons r0 rrest)
              (exitFunc (visitNode body (enterFunc fid
                { s with
                  funcs_to_decorators := ainsert fid (.cons r0 rrest) s.funcs_to_decorators,
                  singledispatch_impls :=
                    (processDecorators fid fargs (.cons d0 rest)
                      s.singledispatch_impls).2 })).1)
            constructor
            · rw [hdl.2.1]
              exact hbody.1
            · intro x hx
              rw [mentioned_coreEq hdl] at hx
              have hx2 := mentioned_exitFunc _ x hx
              rcases hbody.2 x hx2 with hx3 | hx3
              · rcases hent.2 x hx3 with hx4 | hx4
                · exact Or.inl hx4
                · exact Or.inr (by simp [nodeFuncIds, hx4])
              · exact Or.inr (by simp [nodeFuncIds, hx3])
          · intro i hi hmem
            rcases hent.2 i hmem with hx | hx
            · exact hdisj i (by simp [nodeFuncIds, hi]) hx
            · exact hfb (hx ▸ hi)

/-- C9: the `nested_funcs` parent map is acyclic at every point of the
traversal — it is acyclic initially, and visiting any subtree whose
function ids are distinct and fresh preserves acyclicity — and on every
acyclic state the `is_parent` chain walk reaches its answer within
`length + 1` steps (the fuel the implementation supplies), so `is_parent`
terminates on every reachable analyzer state. -/
theorem c9_nested_acyclic :
    NfInv St.initial.nested_funcs ∧
    (∀ (n : Node) (s : St),
      NfInv s.nested_funcs → (nodeFuncIds n).Nodup →
      (∀ i ∈ nodeFuncIds n, i ∉ mentioned s) →
      NfInv (visitNode n s).1.nested_funcs) ∧
    (∀ s : St, NfInv s.nested_funcs → ∀ fitem child : Nat,
      (isParentAux s.nested_funcs fitem (s.nested_funcs.length + 1) child).isSome = true ∧
      is_parent s.nested_funcs fitem child =
        (isParentAux s.nested_funcs fitem (s.nested_funcs.length + 1) child).getD false) := by
  refine ⟨nfInv_nil, fun n s h1 h2 h3 => (visitNode_nfInv n s h1 h2 h3).1, ?_⟩
  intro s hs fitem child
  exact ⟨isParentAux_total s.nested_funcs hs fitem child, rfl⟩

/-- C9 witness: acyclicity after analyzing a two-level nesting, and
termination of the walk on the initial state. -/
theorem c9_nested_acyclic_witness :
    NfInv ((visitNode (.funcDef 0 [] (.funcDef 1 [] .skip)) St.initial).1.nested_funcs) ∧
    (isParentAux St.initial.nested_funcs 0 (St.initial.nested_funcs.length + 1)
      1).isSome = true :=
  ⟨c9_nested_acyclic.2.1 (.funcDef 0 [] (.funcDef 1 [] .skip)) St.initial
      c9_nested_acyclic.1 (by decide) (by decide),
   (c9_nested_acyclic.2.2 St.initial c9_nested_acyclic.1 0 1).1⟩

/-- C3 witness: `int | str` translates as the union at version (3, 10),
fails with no version supplied, and propagates the right operand's error
when the left succeeds and the right fails. -/
theorem c3_union_version_gate_witness :
    expr_to_unanalyzed_type (.opE "|" (.nameE "int" none) (.nameE "str" none))
        (some ⟨(3, 10)⟩) none =
      .ok (.unionT [.unbound "int" [] false, .unbound "str" [] false]) ∧
    expr_to_unanalyzed_type (.opE "|" (.nameE "int" none) (.nameE "str" none))
        none none =
      .error .translationError ∧
    expr_to_unanalyzed_type (.opE "|" (.nameE "int" none) (.tupleE .nil))
        (some ⟨(3, 10)⟩) none =
      .error .translationError :=
  ⟨c3_union_version_gate.2.2.1 (.nameE "int" none) (.nameE "str" none) none ⟨(3, 10)⟩
      (.unbound "int" [] false) (.unbound "str" [] false) (by rfl) (by rfl) (by rfl),
   c3_union_version_gate.1 (.nameE "int" none) (.nameE "str" none) none,
   c3_union_version_gate.2.2.2.2 (.nameE "int" none) (.tupleE .nil) none ⟨(3, 10)⟩
      (.unbound "int" [] false) .translationError (by rfl) (by rfl) (by rfl)⟩
